import Mathlib

/-!
# Verification of the mount-table (fstab) core

Shallow embedding of `fstab.py`: the per-line parser (`Line.set_raw`), the
renderer (`Line.get_raw`), attribute mutation (`Line.__setattr__` and the
`dump`/`fsck`/`options` properties), the table operations
(`Fstab.get_entry` / `delete_entry` / `add_entry`), and the atomic
write-back (`Fstab.write`) over an explicit inode-based file-system model.

Strings are modelled as Lean `String`/`List Char`.  Python's `\s`, `\d`
and `str.strip` are modelled on their ASCII fragments (Python also accepts
further Unicode code points; no claim depends on that difference).
-/

/-- Model of Python's regex class `\s` (ASCII fragment): space, tab,
newline, carriage return, vertical tab, form feed. -/
def pyIsSpace (c : Char) : Bool :=
  c.toNat = 32 || c.toNat = 9 || c.toNat = 10 || c.toNat = 13 ||
  c.toNat = 11 || c.toNat = 12

/-- Model of the regex class `\S`. -/
def nonSpace (c : Char) : Bool := !pyIsSpace c

/-- Model of Python's regex class `\d` (ASCII fragment): decimal digits. -/
def pyIsDigit (c : Char) : Bool := 48 ≤ c.toNat && c.toNat ≤ 57

/-- Model of Python's `str.strip()`: remove leading and trailing
whitespace. -/
def pyStrip (l : List Char) : List Char :=
  ((l.dropWhile pyIsSpace).reverse.dropWhile pyIsSpace).reverse

/-- The guard in `Line.set_raw`: `raw.strip() == "" or
raw.strip().startswith("#")`.  When true the line is stored verbatim with
no attempt at the six-field grammar. -/
def blankOrComment (raw : String) : Bool :=
  (pyStrip raw.data).isEmpty || (pyStrip raw.data).head? == some '#'

/-- The thirteen regex group values of the pattern in `Line.set_raw`
(`ws1 device ws2 directory ws3 fstype ws4 options ws5 dump ws6 fsck ws7`)
are recovered from the maximal space/non-space runs of the line:
`s0` is the leading whitespace run, `t1..t6` the first six non-space runs,
`s1..s6` the whitespace runs after them, and `rest` whatever follows. -/
structure Spans where
  s0 : List Char
  t1 : List Char
  s1 : List Char
  t2 : List Char
  s2 : List Char
  t3 : List Char
  s3 : List Char
  t4 : List Char
  s4 : List Char
  t5 : List Char
  s5 : List Char
  t6 : List Char
  s6 : List Char
  rest : List Char
deriving DecidableEq, Repr

/-- Split a line into its leading whitespace run, six alternating
token/whitespace runs, and the remainder. -/
def mkSpans (l : List Char) : Spans :=
  let s0 := l.takeWhile pyIsSpace
  let r0 := l.dropWhile pyIsSpace
  let t1 := r0.takeWhile nonSpace
  let r1 := r0.dropWhile nonSpace
  let s1 := r1.takeWhile pyIsSpace
  let r2 := r1.dropWhile pyIsSpace
  let t2 := r2.takeWhile nonSpace
  let r3 := r2.dropWhile nonSpace
  let s2 := r3.takeWhile pyIsSpace
  let r4 := r3.dropWhile pyIsSpace
  let t3 := r4.takeWhile nonSpace
  let r5 := r4.dropWhile nonSpace
  let s3 := r5.takeWhile pyIsSpace
  let r6 := r5.dropWhile pyIsSpace
  let t4 := r6.takeWhile nonSpace
  let r7 := r6.dropWhile nonSpace
  let s4 := r7.takeWhile pyIsSpace
  let r8 := r7.dropWhile pyIsSpace
  let t5 := r8.takeWhile nonSpace
  let r9 := r8.dropWhile nonSpace
  let s5 := r9.takeWhile pyIsSpace
  let r10 := r9.dropWhile pyIsSpace
  let t6 := r10.takeWhile nonSpace
  let r11 := r10.dropWhile nonSpace
  let s6 := r11.takeWhile pyIsSpace
  let r12 := r11.dropWhile pyIsSpace
  ⟨s0, t1, s1, t2, s2, t3, s3, t4, s4, t5, s5, t6, s6, r12⟩

/-- Success condition of the anchored regex when `device` is non-empty:
exactly six tokens (nothing after the sixth beyond trailing whitespace)
and the fifth and sixth tokens are pure digit strings (`\d+`). -/
def condA (S : Spans) : Bool :=
  !S.t1.isEmpty && !S.t2.isEmpty && !S.t3.isEmpty && !S.t4.isEmpty &&
  !S.t5.isEmpty && !S.t6.isEmpty && S.rest.isEmpty &&
  S.t5.all pyIsDigit && S.t6.all pyIsDigit

/-- Success condition of the anchored regex when `device` matches the
empty string: the line starts with whitespace (split between `ws1` and the
mandatory `ws2`), has exactly five tokens, and the fourth and fifth tokens
are pure digit strings. -/
def condB (S : Spans) : Bool :=
  !S.s0.isEmpty && !S.t1.isEmpty && !S.t2.isEmpty && !S.t3.isEmpty &&
  !S.t4.isEmpty && !S.t5.isEmpty && S.t6.isEmpty &&
  S.t4.all pyIsDigit && S.t5.all pyIsDigit

/-- The singleton list holding the last element (empty for the empty
list).  Used for the `ws2` group when `device` matches empty: the greedy
`ws1 = \s*` backtracks by exactly one character so that `ws2 = \s+` can
match. -/
def lastRun (l : List Char) : List Char :=
  match l.getLast? with
  | some c => [c]
  | none => []

/-- State of one `Line` object: the `dict` of `Line` holds the thirteen
group attributes (each a string, or `None` for a line without filesystem
specification) plus the raw text. -/
structure LineState where
  ws1 : Option String
  device : Option String
  ws2 : Option String
  directory : Option String
  ws3 : Option String
  fstype : Option String
  ws4 : Option String
  options : Option String
  ws5 : Option String
  dump : Option String
  ws6 : Option String
  fsck : Option String
  ws7 : Option String
  raw : String
deriving DecidableEq, Repr

/-- The state produced when the line does not (or is not allowed to)
match: every attribute is `None`, only the raw text is kept.  This is the
`OpaqueLine` of the specification. -/
def plainLine (raw : String) : LineState :=
  ⟨none, none, none, none, none, none, none, none, none, none, none, none,
   none, raw⟩

/-- Entry built from the regex groups when `device` is non-empty. -/
def entryA (S : Spans) (raw : String) : LineState :=
  ⟨some ⟨S.s0⟩, some ⟨S.t1⟩, some ⟨S.s1⟩, some ⟨S.t2⟩, some ⟨S.s2⟩,
   some ⟨S.t3⟩, some ⟨S.s3⟩, some ⟨S.t4⟩, some ⟨S.s4⟩, some ⟨S.t5⟩,
   some ⟨S.s5⟩, some ⟨S.t6⟩, some ⟨S.s6⟩, raw⟩

/-- Entry built from the regex groups when `device` matches the empty
string: the leading whitespace run is split into `ws1` (all but its last
character) and `ws2` (exactly its last character), reflecting the
backtracking of the greedy `\s*` for `ws1` against the mandatory `\s+`
for `ws2`. -/
def entryB (S : Spans) (raw : String) : LineState :=
  ⟨some ⟨S.s0.dropLast⟩, some "", some ⟨lastRun S.s0⟩, some ⟨S.t1⟩,
   some ⟨S.s1⟩, some ⟨S.t2⟩, some ⟨S.s2⟩, some ⟨S.t3⟩, some ⟨S.s3⟩,
   some ⟨S.t4⟩, some ⟨S.s4⟩, some ⟨S.t5⟩, some ⟨S.s5⟩, raw⟩

/-- Model of `Line.set_raw` (also the `Line` constructor, which assigns
`self.raw`): trim-check first, then the anchored six-field regex; on
failure every attribute becomes `None`. -/
def set_raw (raw : String) : LineState :=
  if blankOrComment raw then plainLine raw
  else
    let S := mkSpans raw.data
    if condA S then entryA S raw
    else if condB S then entryB S raw
    else plainLine raw

/-- Model of `Line.has_filesystem`: `self.device is not None`. -/
def has_filesystem (s : LineState) : Bool := s.device.isSome

/-- Model of `Line.get_raw`: for a line with filesystem specification,
join the thirteen stored attribute strings; otherwise return the stored
raw text. -/
def get_raw (s : LineState) : String :=
  if s.device.isSome then
    s.ws1.getD "" ++ (s.device.getD "" ++ (s.ws2.getD "" ++
      (s.directory.getD "" ++ (s.ws3.getD "" ++ (s.fstype.getD "" ++
      (s.ws4.getD "" ++ (s.options.getD "" ++ (s.ws5.getD "" ++
      (s.dump.getD "" ++ (s.ws6.getD "" ++ (s.fsck.getD "" ++
      s.ws7.getD "")))))))))))
  else s.raw

/-- The error text of `Line.__setattr__` for a structured attribute of a
line without filesystem specification. -/
def noFsMsg (name : String) : String :=
  "Cannot set attribute " ++ name ++
  " when line does not contain filesystem specification"

/-- Model of `line.device = v`: the attribute name is not in the
`forbidden` tuple and is in `self.dict`, so `__setattr__` checks the
stored value and raises when it is `None`. -/
def setattr_device (s : LineState) (v : String) : Except String LineState :=
  match s.device with
  | none => .error (noFsMsg "device")
  | some _ => .ok { s with device := some v }

/-- Model of `line.directory = v` (see `setattr_device`). -/
def setattr_directory (s : LineState) (v : String) :
    Except String LineState :=
  match s.directory with
  | none => .error (noFsMsg "directory")
  | some _ => .ok { s with directory := some v }

/-- Model of `line.fstype = v` (see `setattr_device`). -/
def setattr_fstype (s : LineState) (v : String) : Except String LineState :=
  match s.fstype with
  | none => .error (noFsMsg "fstype")
  | some _ => .ok { s with fstype := some v }

/-- Decimal digits of a natural number, with explicit fuel so that the
definition is structurally recursive (the fuel `n + 1` always suffices). -/
def natDigitsAux : Nat → Nat → List Char
  | 0, _ => []
  | fuel + 1, n =>
    if n < 10 then [Char.ofNat (48 + n)]
    else natDigitsAux fuel (n / 10) ++ [Char.ofNat (48 + n % 10)]

/-- Decimal digit string of a natural number (no sign, no padding). -/
def natDigits (n : Nat) : List Char := natDigitsAux (n + 1) n

/-- Model of Python's `str(i)` for an integer `i`. -/
def pyStr (i : Int) : String :=
  if i < 0 then "-" ++ ⟨natDigits i.natAbs⟩ else ⟨natDigits i.toNat⟩

/-- Model of Python's `",".join(list)`. -/
def joinWithComma : List String → String
  | [] => ""
  | [x] => x
  | x :: xs => x ++ "," ++ joinWithComma xs

/-- Model of Python's `s.split(",")` on the character list of `s`:
splits at every comma; the empty string yields `[""]`. -/
def splitComma : List Char → List (List Char)
  | [] => [[]]
  | c :: r =>
    if c = ',' then [] :: splitComma r
    else
      match splitComma r with
      | h :: t => (c :: h) :: t
      | [] => [[c]]

/-- Model of `line.dump = v`: `"dump"` is in the `forbidden` tuple of
`Line.__setattr__`, so the assignment reaches `object.__setattr__`, which
invokes the property setter `set_dump`: `self.dict["dump"] = str(value)`.
This succeeds even when the line has no filesystem specification. -/
def set_dump (s : LineState) (v : Int) : LineState :=
  { s with dump := some (pyStr v) }

/-- Model of `line.fsck = v` (property setter `set_fsck`, reached for the
same reason as `set_dump`). -/
def set_fsck (s : LineState) (v : Int) : LineState :=
  { s with fsck := some (pyStr v) }

/-- Model of `line.options = v` (property setter `set_options`:
`self.dict["options"] = ",".join(list)`), reached unconditionally because
`"options"` is in the `forbidden` tuple. -/
def set_options (s : LineState) (l : List String) : LineState :=
  { s with options := some (joinWithComma l) }

/-- Outcome of the attribute assignment `line.options = l`: routed through
`object.__setattr__` to the property setter, hence never an error. -/
def assign_options (s : LineState) (l : List String) :
    Except String LineState :=
  .ok (set_options s l)

/-- Outcome of the attribute assignment `line.dump = v` (never an error,
see `set_dump`). -/
def assign_dump (s : LineState) (v : Int) : Except String LineState :=
  .ok (set_dump s v)

/-- Outcome of the attribute assignment `line.fsck = v` (never an error,
see `set_fsck`). -/
def assign_fsck (s : LineState) (v : Int) : Except String LineState :=
  .ok (set_fsck s v)

/-- Model of `Line.get_options`: `self.dict["options"].split(",")`; on a
line without filesystem specification the stored value is `None` and the
Python call would fail, hence the `Option` result. -/
def get_options (s : LineState) : Option (List String) :=
  s.options.map (fun o => (splitComma o.data).map (fun l => (⟨l⟩ : String)))

/-- The comparison `getattr(line, 'directory') == directory` of the table
operations: `None` never equals a string, a stored string compares by
string equality. -/
def lineMatches (d : String) (s : LineState) : Bool :=
  s.directory == some d

/-- Model of `Fstab.get_entry`: first line whose `directory` equals the
argument, or `None`. -/
def get_entry (lines : List LineState) (d : String) : Option LineState :=
  lines.find? (lineMatches d)

/-- Model of `Fstab.delete_entry`.  The Python loop deletes `lines[i]`
while iterating with a live index, so after a deletion the element that
slides into position `i` is skipped (never examined); the scan then
continues, so non-adjacent later matches are deleted as well. -/
def delete_entry : List LineState → String → List LineState
  | [], _ => []
  | x :: xs, d =>
    if lineMatches d x then
      match xs with
      | [] => []
      | y :: ys => y :: delete_entry ys d
    else x :: delete_entry xs d

/-- The text `"{} {} {} {} {} {}\n".format(device, directory, fstype,
options, dump, fsck)` built by `Fstab.add_entry`. -/
def pyFormatEntry (device directory fstype options : String)
    (dump fsck : Int) : String :=
  device ++ (" " ++ (directory ++ (" " ++ (fstype ++ (" " ++ (options ++
    (" " ++ (pyStr dump ++ (" " ++ (pyStr fsck ++ "\n"))))))))))

/-- Model of `Fstab.add_entry`: delete the existing entry for the mount
point if one is found, then append `Line(formatted text)` (whose
constructor runs `set_raw`). -/
def add_entry (lines : List LineState) (device directory fstype
    options : String) (dump fsck : Int) : List LineState :=
  (if (get_entry lines directory).isSome then delete_entry lines directory
   else lines) ++ [set_raw (pyFormatEntry device directory fstype options
     dump fsck)]

/-- Number of entries of the table whose `directory` equals `d`. -/
def countFor (lines : List LineState) (d : String) : Nat :=
  lines.countP (lineMatches d)

/-- Concatenation written by the loop of `Fstab.write`:
`for line in self.lines: f.write(line.raw)`. -/
def renderTable (lines : List LineState) : String :=
  lines.foldl (fun acc l => acc ++ get_raw l) ""

/-- File-system state: a name table (path to inode) and an inode table
(inode to content and permission bits).  Hard links are two names mapping
to one inode; `nextInode` feeds fresh inodes to file creation. -/
structure FSState where
  names : String → Option Nat
  inodes : Nat → Option (String × Nat)
  nextInode : Nat

/-- Content of the file at a path, when it exists. -/
def contentAt (fs : FSState) (p : String) : Option String :=
  (fs.names p).bind (fun i => (fs.inodes i).map Prod.fst)

/-- Permission bits of the file at a path, when it exists. -/
def permsAt (fs : FSState) (p : String) : Option Nat :=
  (fs.names p).bind (fun i => (fs.inodes i).map Prod.snd)

/-- Create a file at a fresh inode (model of `tempfile.mkstemp`, which
creates the temporary file with mode `0o600`). -/
def createFile (fs : FSState) (p : String) (c : String) (m : Nat) :
    FSState :=
  { names := fun q => if q = p then some fs.nextInode else fs.names q,
    inodes := fun j => if j = fs.nextInode then some (c, m)
      else fs.inodes j,
    nextInode := fs.nextInode + 1 }

/-- Overwrite the content of the file at `p` (model of `open(p, "w")`
followed by the write loop). -/
def setContentAt (fs : FSState) (p : String) (s : String) : FSState :=
  match fs.names p with
  | none => fs
  | some i =>
    match fs.inodes i with
    | none => fs
    | some cm =>
      { fs with inodes := fun j => if j = i then some (s, cm.2)
          else fs.inodes j }

/-- Model of `os.chmod` (`Fstab.chmod_file`). -/
def chmodAt (fs : FSState) (p : String) (m : Nat) : FSState :=
  match fs.names p with
  | none => fs
  | some i =>
    match fs.inodes i with
    | none => fs
    | some cm =>
      { fs with inodes := fun j => if j = i then some (cm.1, m)
          else fs.inodes j }

/-- Model of `os.remove`: drop the name (the inode stays reachable through
any other hard link). -/
def delName (fs : FSState) (p : String) : FSState :=
  { fs with names := fun q => if q = p then none else fs.names q }

/-- Model of `os.link` (`Fstab.link_file` after the remove): the new name
shares the inode of the old name. -/
def linkNames (fs : FSState) (old new : String) : FSState :=
  match fs.names old with
  | none => fs
  | some i =>
    { fs with names := fun q => if q = new then some i else fs.names q }

/-- Model of `os.rename` (`Fstab.rename_file`): the destination name takes
the source's inode atomically and the source name disappears. -/
def renameFile (fs : FSState) (old new : String) : FSState :=
  match fs.names old with
  | none => fs
  | some i =>
    { fs with names := fun q =>
        if q = new then some i
        else if q = old then none
        else fs.names q }

/-- Model of `Fstab.write` on the file-system model.  `failAt` injects an
I/O failure at the numbered elementary operation (0 `mkstemp`, 1 writing
the rendering into the temporary file, 2 `os.stat` of the target, 3
`os.chmod` of the temporary file, 4 `os.remove` of a pre-existing backup,
5 `os.link` of the backup, 6 the final `os.rename`); `os.stat` also fails
when the target file does not exist.  `tempname` stands for the fresh
name chosen by `mkstemp`.  The method has no exception handler, so an
error returns the file system exactly as the failing step left it. -/
def writeFs (failAt : Nat → Bool) (tempname : String)
    (lines : List LineState) (fn : String) (fs : FSState) :
    Except (Nat × FSState) FSState :=
  if failAt 0 then .error (0, fs) else
  let fs0 := createFile fs tempname "" 384
  if failAt 1 then .error (1, fs0) else
  let fs1 := setContentAt fs0 tempname (renderTable lines)
  match permsAt fs1 fn with
  | none => .error (2, fs1)
  | some m =>
    if failAt 2 then .error (2, fs1) else
    if failAt 3 then .error (3, fs1) else
    let fs2 := chmodAt fs1 tempname m
    if (fs2.names (fn ++ ".bak")).isSome then
      if failAt 4 then .error (4, fs2) else
      let fs3 := delName fs2 (fn ++ ".bak")
      if failAt 5 then .error (5, fs3) else
      let fs4 := linkNames fs3 fn (fn ++ ".bak")
      if failAt 6 then .error (6, fs4) else
      .ok (renameFile fs4 tempname fn)
    else
      if failAt 5 then .error (5, fs2) else
      let fs4 := linkNames fs2 fn (fn ++ ".bak")
      if failAt 6 then .error (6, fs4) else
      .ok (renameFile fs4 tempname fn)

/-- Content at a path after a successful `writeFs` (`none` on failure). -/
def okContentAt (r : Except (Nat × FSState) FSState) (p : String) :
    Option String :=
  match r with
  | .ok fs => contentAt fs p
  | .error _ => none

/-- Permissions at a path after a successful `writeFs` (`none` on
failure). -/
def okPermsAt (r : Except (Nat × FSState) FSState) (p : String) :
    Option Nat :=
  match r with
  | .ok fs => permsAt fs p
  | .error _ => none

/-- Inode-freshness invariant of the file-system model: every inode in
use is below `nextInode`. -/
def FSWF (fs : FSState) : Prop :=
  ∀ p i, fs.names p = some i → i < fs.nextInode

/-- The six-field grammar of the specification, as a predicate on the
character list of a raw line: `ws1* device* ws2+ directory+ ws3+ fstype+
ws4+ options+ ws5+ dump-digits+ ws6+ fsck-digits+ ws7*` covering the whole
line, whitespace groups whitespace-only (`ws1`/`ws7` possibly empty),
content fields non-space (only `device` may be empty), `dump`/`fsck` pure
digit strings. -/
def MatchesGrammar (l : List Char) : Prop :=
  ∃ w1 dev w2 dir w3 ft w4 op w5 dp w6 fk w7 : List Char,
    l = w1 ++ (dev ++ (w2 ++ (dir ++ (w3 ++ (ft ++ (w4 ++ (op ++ (w5 ++
      (dp ++ (w6 ++ (fk ++ w7))))))))))) ∧
    w1.all pyIsSpace = true ∧
    dev.all nonSpace = true ∧
    w2.all pyIsSpace = true ∧ w2 ≠ [] ∧
    dir.all nonSpace = true ∧ dir ≠ [] ∧
    w3.all pyIsSpace = true ∧ w3 ≠ [] ∧
    ft.all nonSpace = true ∧ ft ≠ [] ∧
    w4.all pyIsSpace = true ∧ w4 ≠ [] ∧
    op.all nonSpace = true ∧ op ≠ [] ∧
    w5.all pyIsSpace = true ∧ w5 ≠ [] ∧
    dp.all pyIsDigit = true ∧ dp ≠ [] ∧
    w6.all pyIsSpace = true ∧ w6 ≠ [] ∧
    fk.all pyIsDigit = true ∧ fk ≠ [] ∧
    w7.all pyIsSpace = true

/-- Witness file system for the successful-write theorem: one file `"f"`
with content `"old"` and mode `0o644`. -/
def fsOneFile : FSState :=
  { names := fun q => if q = "f" then some 0 else none,
    inodes := fun j => if j = 0 then some ("old", 420) else none,
    nextInode := 1 }

/-- Witness file system for the failing-write theorems: empty. -/
def fsEmpty : FSState :=
  { names := fun _ => none, inodes := fun _ => none, nextInode := 0 }

/-- The file-system state at which a write into `fsEmpty` fails: the
temporary file has been created and filled, and `os.stat` of the missing
target then raises. -/
def fsEmptyFailed : FSState :=
  setContentAt (createFile fsEmpty "f.tmp1" "" 384) "f.tmp1"
    (renderTable [])

/-- The file-system state after a successful write of the one-line table
`["# c\n"]` into `fsOneFile` at `"f"` with temporary name `"f.tmp1"`. -/
def fsAfterWrite : FSState :=
  renameFile (linkNames (chmodAt (setContentAt (createFile fsOneFile
    "f.tmp1" "" 384) "f.tmp1" (renderTable [set_raw "# c\n"])) "f.tmp1"
    420) "f" ("f" ++ ".bak")) "f.tmp1" "f"

theorem head?_dropWhile_false {α : Type} (p : α → Bool) (l : List α)
    (c : α) (h : (l.dropWhile p).head? = some c) : p c = false := by
  induction l with
  | nil => simp at h
  | cons x xs ih =>
    by_cases hx : p x
    · rw [List.dropWhile_cons_of_pos hx] at h
      exact ih h
    · rw [List.dropWhile_cons_of_neg hx] at h
      simp at h
      rw [← h]
      simpa using hx

theorem span_append {α : Type} (p : α → Bool) (a b : List α)
    (ha : a.all p = true) (hb : ∀ c, b.head? = some c → p c = false) :
    (a ++ b).takeWhile p = a ∧ (a ++ b).dropWhile p = b := by
  induction a with
  | nil =>
    simp only [List.nil_append]
    cases b with
    | nil => simp
    | cons c cs =>
      have hc := hb c rfl
      simp [List.takeWhile_cons, List.dropWhile_cons, hc]
  | cons x xs ih =>
    simp only [List.all_cons, Bool.and_eq_true] at ha
    have hih := ih ha.2
    simp [List.takeWhile_cons, List.dropWhile_cons, ha.1, hih.1, hih.2]

theorem digit_not_space {c : Char} (h : pyIsDigit c = true) :
    pyIsSpace c = false := by
  simp only [pyIsDigit, Bool.and_eq_true, decide_eq_true_eq] at h
  simp only [pyIsSpace, Bool.or_eq_false_iff, decide_eq_false_iff_not]
  omega

theorem digit_nonSpace {c : Char} (h : pyIsDigit c = true) :
    nonSpace c = true := by
  simp [nonSpace, digit_not_space h]

theorem all_digit_all_nonSpace {l : List Char}
    (h : l.all pyIsDigit = true) : l.all nonSpace = true := by
  rw [List.all_eq_true] at h ⊢
  intro c hc
  exact digit_nonSpace (h c hc)

theorem head?_append_left {α : Type} (a b : List α) (h : a ≠ []) :
    (a ++ b).head? = a.head? := by
  cases a with
  | nil => exact absurd rfl h
  | cons x xs => rfl

theorem head_of_all_nonSpace {t : List Char} (ht : t.all nonSpace = true)
    (c : Char) (hc : t.head? = some c) : pyIsSpace c = false := by
  cases t with
  | nil => simp at hc
  | cons x xs =>
    simp only [List.head?_cons, Option.some.injEq] at hc
    simp only [List.all_cons, Bool.and_eq_true] at ht
    subst hc
    have := ht.1
    simpa [nonSpace] using this

theorem head_of_all_space {t : List Char} (ht : t.all pyIsSpace = true)
    (c : Char) (hc : t.head? = some c) : nonSpace c = false := by
  cases t with
  | nil => simp at hc
  | cons x xs =>
    simp only [List.head?_cons, Option.some.injEq] at hc
    simp only [List.all_cons, Bool.and_eq_true] at ht
    subst hc
    simpa [nonSpace] using ht.1

theorem isEmpty_false_of_ne_nil {α : Type} {l : List α} (h : l ≠ []) :
    l.isEmpty = false := by
  simpa [List.isEmpty_iff] using h

theorem mem_of_getLast?_eq {α : Type} {l : List α} {a : α}
    (h : l.getLast? = some a) : a ∈ l := by
  have h2 : l ≠ [] := by intro e; subst e; simp at h
  rw [List.getLast?_eq_getLast l h2] at h
  cases h
  exact List.getLast_mem h2

theorem all_dropLast {α : Type} {p : α → Bool} {l : List α}
    (h : l.all p = true) : l.dropLast.all p = true := by
  rw [List.all_eq_true] at h ⊢
  intro c hc
  exact h c (List.dropLast_subset l hc)

theorem all_lastRun {p : Char → Bool} {l : List Char}
    (h : l.all p = true) : (lastRun l).all p = true := by
  rw [List.all_eq_true] at h
  unfold lastRun
  cases hg : l.getLast? with
  | none => simp
  | some c => simpa using h c (mem_of_getLast?_eq hg)

theorem lastRun_ne_nil {l : List Char} (h : l ≠ []) : lastRun l ≠ [] := by
  unfold lastRun
  rw [List.getLast?_eq_getLast l h]
  simp

theorem dropLast_append_lastRun {l : List Char} (h : l ≠ []) :
    l.dropLast ++ lastRun l = l := by
  unfold lastRun
  rw [List.getLast?_eq_getLast l h]
  exact List.dropLast_append_getLast h

theorem takeWhile_of_all {α : Type} {p : α → Bool} {l : List α}
    (h : l.all p = true) : l.takeWhile p = l ∧ l.dropWhile p = [] := by
  induction l with
  | nil => simp
  | cons x xs ih =>
    simp only [List.all_cons, Bool.and_eq_true] at h
    have := ih h.2
    simp [List.takeWhile_cons, List.dropWhile_cons, h.1, this.1, this.2]

theorem s_nonempty_of_t_nonempty (u : List Char)
    (hu : ∀ c, u.head? = some c → nonSpace c = false)
    (h : (u.dropWhile pyIsSpace).takeWhile nonSpace ≠ []) :
    u.takeWhile pyIsSpace ≠ [] := by
  cases u with
  | nil => simp at h
  | cons c cs =>
    have hc : nonSpace c = false := hu c rfl
    have hc2 : pyIsSpace c = true := by simpa [nonSpace] using hc
    simp [List.takeWhile_cons, hc2]

theorem tok_empty_of_span (m : List Char)
    (h : (m.dropWhile pyIsSpace).takeWhile nonSpace = []) :
    m.dropWhile pyIsSpace = [] := by
  cases hd : m.dropWhile pyIsSpace with
  | nil => rfl
  | cons c cs =>
    have hc : pyIsSpace c = false :=
      head?_dropWhile_false pyIsSpace m c (by rw [hd]; rfl)
    rw [hd] at h
    simp [List.takeWhile_cons, nonSpace, hc] at h

theorem mkSpans_concat (l : List Char) :
    (mkSpans l).s0 ++ ((mkSpans l).t1 ++ ((mkSpans l).s1 ++
      ((mkSpans l).t2 ++ ((mkSpans l).s2 ++ ((mkSpans l).t3 ++
      ((mkSpans l).s3 ++ ((mkSpans l).t4 ++ ((mkSpans l).s4 ++
      ((mkSpans l).t5 ++ ((mkSpans l).s5 ++ ((mkSpans l).t6 ++
      ((mkSpans l).s6 ++ (mkSpans l).rest)))))))))))) = l := by
  simp only [mkSpans]
  simp only [List.takeWhile_append_dropWhile]

theorem mkSpans_t6_empty (l : List Char) (h : (mkSpans l).t6 = []) :
    (mkSpans l).s6 = [] ∧ (mkSpans l).rest = [] := by
  simp only [mkSpans] at h ⊢
  rw [tok_empty_of_span _ h]
  simp

theorem mkSpans_s0_space (l : List Char) :
    (mkSpans l).s0.all pyIsSpace = true := by
  simp only [mkSpans]; exact List.all_takeWhile

theorem mkSpans_s1_space (l : List Char) :
    (mkSpans l).s1.all pyIsSpace = true := by
  simp only [mkSpans]; exact List.all_takeWhile

theorem mkSpans_s2_space (l : List Char) :
    (mkSpans l).s2.all pyIsSpace = true := by
  simp only [mkSpans]; exact List.all_takeWhile

theorem mkSpans_s3_space (l : List Char) :
    (mkSpans l).s3.all pyIsSpace = true := by
  simp only [mkSpans]; exact List.all_takeWhile

theorem mkSpans_s4_space (l : List Char) :
    (mkSpans l).s4.all pyIsSpace = true := by
  simp only [mkSpans]; exact List.all_takeWhile

theorem mkSpans_s5_space (l : List Char) :
    (mkSpans l).s5.all pyIsSpace = true := by
  simp only [mkSpans]; exact List.all_takeWhile

theorem mkSpans_s6_space (l : List Char) :
    (mkSpans l).s6.all pyIsSpace = true := by
  simp only [mkSpans]; exact List.all_takeWhile

theorem mkSpans_t1_tok (l : List Char) :
    (mkSpans l).t1.all nonSpace = true := by
  simp only [mkSpans]; exact List.all_takeWhile

theorem mkSpans_t2_tok (l : List Char) :
    (mkSpans l).t2.all nonSpace = true := by
  simp only [mkSpans]; exact List.all_takeWhile

theorem mkSpans_t3_tok (l : List Char) :
    (mkSpans l).t3.all nonSpace = true := by
  simp only [mkSpans]; exact List.all_takeWhile

theorem mkSpans_t4_tok (l : List Char) :
    (mkSpans l).t4.all nonSpace = true := by
  simp only [mkSpans]; exact List.all_takeWhile

theorem mkSpans_s1_ne (l : List Char) (h : (mkSpans l).t2 ≠ []) :
    (mkSpans l).s1 ≠ [] := by
  simp only [mkSpans] at h ⊢
  exact s_nonempty_of_t_nonempty _
    (fun c hc => head?_dropWhile_false nonSpace _ c hc) h

theorem mkSpans_s2_ne (l : List Char) (h : (mkSpans l).t3 ≠ []) :
    (mkSpans l).s2 ≠ [] := by
  simp only [mkSpans] at h ⊢
  exact s_nonempty_of_t_nonempty _
    (fun c hc => head?_dropWhile_false nonSpace _ c hc) h

theorem mkSpans_s3_ne (l : List Char) (h : (mkSpans l).t4 ≠ []) :
    (mkSpans l).s3 ≠ [] := by
  simp only [mkSpans] at h ⊢
  exact s_nonempty_of_t_nonempty _
    (fun c hc => head?_dropWhile_false nonSpace _ c hc) h

theorem mkSpans_s4_ne (l : List Char) (h : (mkSpans l).t5 ≠ []) :
    (mkSpans l).s4 ≠ [] := by
  simp only [mkSpans] at h ⊢
  exact s_nonempty_of_t_nonempty _
    (fun c hc => head?_dropWhile_false nonSpace _ c hc) h

theorem mkSpans_s5_ne (l : List Char) (h : (mkSpans l).t6 ≠ []) :
    (mkSpans l).s5 ≠ [] := by
  simp only [mkSpans] at h ⊢
  exact s_nonempty_of_t_nonempty _
    (fun c hc => head?_dropWhile_false nonSpace _ c hc) h

theorem mkSpans_eq6 (w1 t1 w2 t2 w3 t3 w4 t4 w5 t5 w6 t6 w7 r : List Char)
    (hw1 : w1.all pyIsSpace = true)
    (ht1 : t1.all nonSpace = true) (ht1n : t1 ≠ [])
    (hw2 : w2.all pyIsSpace = true) (hw2n : w2 ≠ [])
    (ht2 : t2.all nonSpace = true) (ht2n : t2 ≠ [])
    (hw3 : w3.all pyIsSpace = true) (hw3n : w3 ≠ [])
    (ht3 : t3.all nonSpace = true) (ht3n : t3 ≠ [])
    (hw4 : w4.all pyIsSpace = true) (hw4n : w4 ≠ [])
    (ht4 : t4.all nonSpace = true) (ht4n : t4 ≠ [])
    (hw5 : w5.all pyIsSpace = true) (hw5n : w5 ≠ [])
    (ht5 : t5.all nonSpace = true) (ht5n : t5 ≠ [])
    (hw6 : w6.all pyIsSpace = true) (hw6n : w6 ≠ [])
    (ht6 : t6.all nonSpace = true) (ht6n : t6 ≠ [])
    (hw7 : w7.all pyIsSpace = true)
    (hr : ∀ c, r.head? = some c → pyIsSpace c = false)
    (hw7r : w7 = [] → r = []) :
    mkSpans (w1 ++ (t1 ++ (w2 ++ (t2 ++ (w3 ++ (t3 ++ (w4 ++ (t4 ++
        (w5 ++ (t5 ++ (w6 ++ (t6 ++ (w7 ++ r))))))))))))) =
      ⟨w1, t1, w2, t2, w3, t3, w4, t4, w5, t5, w6, t6, w7, r⟩ := by
  set A13 := w7 ++ r with h13
  set A12 := t6 ++ A13 with h12
  set A11 := w6 ++ A12 with h11
  set A10 := t5 ++ A11 with h10
  set A9 := w5 ++ A10 with h9
  set A8 := t4 ++ A9 with h8
  set A7 := w4 ++ A8 with h7
  set A6 := t3 ++ A7 with h6
  set A5 := w3 ++ A6 with h5
  set A4 := t2 ++ A5 with h4
  set A3 := w2 ++ A4 with h3
  set A2 := t1 ++ A3 with h2
  have hb2 : ∀ c, A2.head? = some c → pyIsSpace c = false := by
    rw [h2]; intro c hc
    rw [head?_append_left t1 A3 ht1n] at hc
    exact head_of_all_nonSpace ht1 c hc
  have hb3 : ∀ c, A3.head? = some c → nonSpace c = false := by
    rw [h3]; intro c hc
    rw [head?_append_left w2 A4 hw2n] at hc
    exact head_of_all_space hw2 c hc
  have hb4 : ∀ c, A4.head? = some c → pyIsSpace c = false := by
    rw [h4]; intro c hc
    rw [head?_append_left t2 A5 ht2n] at hc
    exact head_of_all_nonSpace ht2 c hc
  have hb5 : ∀ c, A5.head? = some c → nonSpace c = false := by
    rw [h5]; intro c hc
    rw [head?_append_left w3 A6 hw3n] at hc
    exact head_of_all_space hw3 c hc
  have hb6 : ∀ c, A6.head? = some c → pyIsSpace c = false := by
    rw [h6]; intro c hc
    rw [head?_append_left t3 A7 ht3n] at hc
    exact head_of_all_nonSpace ht3 c hc
  have hb7 : ∀ c, A7.head? = some c → nonSpace c = false := by
    rw [h7]; intro c hc
    rw [head?_append_left w4 A8 hw4n] at hc
    exact head_of_all_space hw4 c hc
  have hb8 : ∀ c, A8.head? = some c → pyIsSpace c = false := by
    rw [h8]; intro c hc
    rw [head?_append_left t4 A9 ht4n] at hc
    exact head_of_all_nonSpace ht4 c hc
  have hb9 : ∀ c, A9.head? = some c → nonSpace c = false := by
    rw [h9]; intro c hc
    rw [head?_append_left w5 A10 hw5n] at hc
    exact head_of_all_space hw5 c hc
  have hb10 : ∀ c, A10.head? = some c → pyIsSpace c = false := by
    rw [h10]; intro c hc
    rw [head?_append_left t5 A11 ht5n] at hc
    exact head_of_all_nonSpace ht5 c hc
  have hb11 : ∀ c, A11.head? = some c → nonSpace c = false := by
    rw [h11]; intro c hc
    rw [head?_append_left w6 A12 hw6n] at hc
    exact head_of_all_space hw6 c hc
  have hb12 : ∀ c, A12.head? = some c → pyIsSpace c = false := by
    rw [h12]; intro c hc
    rw [head?_append_left t6 A13 ht6n] at hc
    exact head_of_all_nonSpace ht6 c hc
  have hb13 : ∀ c, A13.head? = some c → nonSpace c = false := by
    rw [h13]; intro c hc
    cases hw7e : w7 with
    | nil =>
      have hre := hw7r hw7e
      rw [hw7e, hre] at hc
      simp at hc
    | cons x xs =>
      rw [hw7e] at hc
      rw [head?_append_left (x :: xs) r (by simp)] at hc
      rw [← hw7e] at hc
      exact head_of_all_space hw7 c hc
  have sp1 := span_append pyIsSpace w1 A2 hw1 hb2
  have sp2 := span_append nonSpace t1 A3 ht1 hb3
  have sp3 := span_append pyIsSpace w2 A4 hw2 hb4
  have sp4 := span_append nonSpace t2 A5 ht2 hb5
  have sp5 := span_append pyIsSpace w3 A6 hw3 hb6
  have sp6 := span_append nonSpace t3 A7 ht3 hb7
  have sp7 := span_append pyIsSpace w4 A8 hw4 hb8
  have sp8 := span_append nonSpace t4 A9 ht4 hb9
  have sp9 := span_append pyIsSpace w5 A10 hw5 hb10
  have sp10 := span_append nonSpace t5 A11 ht5 hb11
  have sp11 := span_append pyIsSpace w6 A12 hw6 hb12
  have sp12 := span_append nonSpace t6 A13 ht6 hb13
  have sp13 := span_append pyIsSpace w7 r hw7 hr
  simp only [mkSpans]
  rw [sp1.1, sp1.2, h2, sp2.1, sp2.2, h3, sp3.1, sp3.2, h4, sp4.1, sp4.2,
    h5, sp5.1, sp5.2, h6, sp6.1, sp6.2, h7, sp7.1, sp7.2, h8, sp8.1,
    sp8.2, h9, sp9.1, sp9.2, h10, sp10.1, sp10.2, h11, sp11.1, sp11.2,
    h12, sp12.1, sp12.2, h13, sp13.1, sp13.2]

theorem mkSpans_eq5 (w1 t1 w2 t2 w3 t3 w4 t4 w5 t5 w6 : List Char)
    (hw1 : w1.all pyIsSpace = true)
    (ht1 : t1.all nonSpace = true) (ht1n : t1 ≠ [])
    (hw2 : w2.all pyIsSpace = true) (hw2n : w2 ≠ [])
    (ht2 : t2.all nonSpace = true) (ht2n : t2 ≠ [])
    (hw3 : w3.all pyIsSpace = true) (hw3n : w3 ≠ [])
    (ht3 : t3.all nonSpace = true) (ht3n : t3 ≠ [])
    (hw4 : w4.all pyIsSpace = true) (hw4n : w4 ≠ [])
    (ht4 : t4.all nonSpace = true) (ht4n : t4 ≠ [])
    (hw5 : w5.all pyIsSpace = true) (hw5n : w5 ≠ [])
    (ht5 : t5.all nonSpace = true) (ht5n : t5 ≠ [])
    (hw6 : w6.all pyIsSpace = true) :
    mkSpans (w1 ++ (t1 ++ (w2 ++ (t2 ++ (w3 ++ (t3 ++ (w4 ++ (t4 ++
        (w5 ++ (t5 ++ w6)))))))))) =
      ⟨w1, t1, w2, t2, w3, t3, w4, t4, w5, t5, w6, [], [], []⟩ := by
  set A11 := t5 ++ w6 with h11
  set A10 := w5 ++ A11 with h10
  set A9 := t4 ++ A10 with h9
  set A8 := w4 ++ A9 with h8
  set A7 := t3 ++ A8 with h7
  set A6 := w3 ++ A7 with h6
  set A5 := t2 ++ A6 with h5
  set A4 := w2 ++ A5 with h4
  set A3 := t1 ++ A4 with h3
  have hb3 : ∀ c, A3.head? = some c → pyIsSpace c = false := by
    rw [h3]; intro c hc
    rw [head?_append_left t1 A4 ht1n] at hc
    exact head_of_all_nonSpace ht1 c hc
  have hb4 : ∀ c, A4.head? = some c → nonSpace c = false := by
    rw [h4]; intro c hc
    rw [head?_append_left w2 A5 hw2n] at hc
    exact head_of_all_space hw2 c hc
  have hb5 : ∀ c, A5.head? = some c → pyIsSpace c = false := by
    rw [h5]; intro c hc
    rw [head?_append_left t2 A6 ht2n] at hc
    exact head_of_all_nonSpace ht2 c hc
  have hb6 : ∀ c, A6.head? = some c → nonSpace c = false := by
    rw [h6]; intro c hc
    rw [head?_append_left w3 A7 hw3n] at hc
    exact head_of_all_space hw3 c hc
  have hb7 : ∀ c, A7.head? = some c → pyIsSpace c = false := by
    rw [h7]; intro c hc
    rw [head?_append_left t3 A8 ht3n] at hc
    exact head_of_all_nonSpace ht3 c hc
  have hb8 : ∀ c, A8.head? = some c → nonSpace c = false := by
    rw [h8]; intro c hc
    rw [head?_append_left w4 A9 hw4n] at hc
    exact head_of_all_space hw4 c hc
  have hb9 : ∀ c, A9.head? = some c → pyIsSpace c = false := by
    rw [h9]; intro c hc
    rw [head?_append_left t4 A10 ht4n] at hc
    exact head_of_all_nonSpace ht4 c hc
  have hb10 : ∀ c, A10.head? = some c → nonSpace c = false := by
    rw [h10]; intro c hc
    rw [head?_append_left w5 A11 hw5n] at hc
    exact head_of_all_space hw5 c hc
  have hb11 : ∀ c, A11.head? = some c → pyIsSpace c = false := by
    rw [h11]; intro c hc
    rw [head?_append_left t5 w6 ht5n] at hc
    exact head_of_all_nonSpace ht5 c hc
  have hb12 : ∀ c, w6.head? = some c → nonSpace c = false :=
    head_of_all_space hw6
  have sp1 := span_append pyIsSpace w1 A3 hw1 hb3
  have sp2 := span_append nonSpace t1 A4 ht1 hb4
  have sp3 := span_append pyIsSpace w2 A5 hw2 hb5
  have sp4 := span_append nonSpace t2 A6 ht2 hb6
  have sp5 := span_append pyIsSpace w3 A7 hw3 hb7
  have sp6 := span_append nonSpace t3 A8 ht3 hb8
  have sp7 := span_append pyIsSpace w4 A9 hw4 hb9
  have sp8 := span_append nonSpace t4 A10 ht4 hb10
  have sp9 := span_append pyIsSpace w5 A11 hw5 hb11
  have sp10 := span_append nonSpace t5 w6 ht5 hb12
  have sp11 := takeWhile_of_all hw6
  simp only [mkSpans]
  rw [sp1.1, sp1.2, h3, sp2.1, sp2.2, h4, sp3.1, sp3.2, h5, sp4.1, sp4.2,
    h6, sp5.1, sp5.2, h7, sp6.1, sp6.2, h8, sp7.1, sp7.2, h9, sp8.1,
    sp8.2, h10, sp9.1, sp9.2, h11, sp10.1, sp10.2, sp11.1, sp11.2]
  simp

theorem set_raw_eq6 (w1 dev w2 dir w3 ft w4 op w5 dp w6 fk w7 : List Char)
    (hbc : blankOrComment ⟨w1 ++ (dev ++ (w2 ++ (dir ++ (w3 ++ (ft ++
      (w4 ++ (op ++ (w5 ++ (dp ++ (w6 ++ (fk ++ w7)))))))))))⟩ = false)
    (hw1 : w1.all pyIsSpace = true)
    (hdev : dev.all nonSpace = true) (hdevn : dev ≠ [])
    (hw2 : w2.all pyIsSpace = true) (hw2n : w2 ≠ [])
    (hdir : dir.all nonSpace = true) (hdirn : dir ≠ [])
    (hw3 : w3.all pyIsSpace = true) (hw3n : w3 ≠ [])
    (hft : ft.all nonSpace = true) (hftn : ft ≠ [])
    (hw4 : w4.all pyIsSpace = true) (hw4n : w4 ≠ [])
    (hop : op.all nonSpace = true) (hopn : op ≠ [])
    (hw5 : w5.all pyIsSpace = true) (hw5n : w5 ≠ [])
    (hdp : dp.all pyIsDigit = true) (hdpn : dp ≠ [])
    (hw6 : w6.all pyIsSpace = true) (hw6n : w6 ≠ [])
    (hfk : fk.all pyIsDigit = true) (hfkn : fk ≠ [])
    (hw7 : w7.all pyIsSpace = true) :
    set_raw ⟨w1 ++ (dev ++ (w2 ++ (dir ++ (w3 ++ (ft ++ (w4 ++ (op ++
        (w5 ++ (dp ++ (w6 ++ (fk ++ w7)))))))))))⟩ =
      ⟨some ⟨w1⟩, some ⟨dev⟩, some ⟨w2⟩, some ⟨dir⟩, some ⟨w3⟩,
       some ⟨ft⟩, some ⟨w4⟩, some ⟨op⟩, some ⟨w5⟩, some ⟨dp⟩,
       some ⟨w6⟩, some ⟨fk⟩, some ⟨w7⟩,
       ⟨w1 ++ (dev ++ (w2 ++ (dir ++ (w3 ++ (ft ++ (w4 ++ (op ++
         (w5 ++ (dp ++ (w6 ++ (fk ++ w7)))))))))))⟩⟩ := by
  have hS := mkSpans_eq6 w1 dev w2 dir w3 ft w4 op w5 dp w6 fk w7 []
    hw1 hdev hdevn hw2 hw2n hdir hdirn hw3 hw3n hft hftn hw4 hw4n hop
    hopn hw5 hw5n (all_digit_all_nonSpace hdp) hdpn hw6 hw6n
    (all_digit_all_nonSpace hfk) hfkn hw7
    (fun c hc => by simp at hc) (fun _ => rfl)
  rw [List.append_nil] at hS
  have hA : condA (⟨w1, dev, w2, dir, w3, ft, w4, op, w5, dp, w6, fk, w7,
      []⟩ : Spans) = true := by
    simp [condA, isEmpty_false_of_ne_nil hdevn,
      isEmpty_false_of_ne_nil hdirn, isEmpty_false_of_ne_nil hftn,
      isEmpty_false_of_ne_nil hopn, isEmpty_false_of_ne_nil hdpn,
      isEmpty_false_of_ne_nil hfkn, hdp, hfk]
  simp only [set_raw]
  rw [if_neg (by simp [hbc])]
  rw [hS]
  rw [if_pos (by simp [hA])]
  simp [entryA]

theorem set_raw_eq5 (s0 dir w3 ft w4 op w5 dp w6 fk w7 : List Char)
    (hbc : blankOrComment ⟨s0 ++ (dir ++ (w3 ++ (ft ++ (w4 ++ (op ++
      (w5 ++ (dp ++ (w6 ++ (fk ++ w7)))))))))⟩ = false)
    (hs0 : s0.all pyIsSpace = true) (hs0n : s0 ≠ [])
    (hdir : dir.all nonSpace = true) (hdirn : dir ≠ [])
    (hw3 : w3.all pyIsSpace = true) (hw3n : w3 ≠ [])
    (hft : ft.all nonSpace = true) (hftn : ft ≠ [])
    (hw4 : w4.all pyIsSpace = true) (hw4n : w4 ≠ [])
    (hop : op.all nonSpace = true) (hopn : op ≠ [])
    (hw5 : w5.all pyIsSpace = true) (hw5n : w5 ≠ [])
    (hdp : dp.all pyIsDigit = true) (hdpn : dp ≠ [])
    (hw6 : w6.all pyIsSpace = true) (hw6n : w6 ≠ [])
    (hfk : fk.all pyIsDigit = true) (hfkn : fk ≠ [])
    (hw7 : w7.all pyIsSpace = true) :
    set_raw ⟨s0 ++ (dir ++ (w3 ++ (ft ++ (w4 ++ (op ++ (w5 ++ (dp ++
        (w6 ++ (fk ++ w7)))))))))⟩ =
      ⟨some ⟨s0.dropLast⟩, some "", some ⟨lastRun s0⟩, some ⟨dir⟩,
       some ⟨w3⟩, some ⟨ft⟩, some ⟨w4⟩, some ⟨op⟩, some ⟨w5⟩,
       some ⟨dp⟩, some ⟨w6⟩, some ⟨fk⟩, some ⟨w7⟩,
       ⟨s0 ++ (dir ++ (w3 ++ (ft ++ (w4 ++ (op ++ (w5 ++ (dp ++
         (w6 ++ (fk ++ w7)))))))))⟩⟩ := by
  have hS := mkSpans_eq5 s0 dir w3 ft w4 op w5 dp w6 fk w7
    hs0 hdir hdirn hw3 hw3n hft hftn hw4 hw4n hop hopn hw5 hw5n
    (all_digit_all_nonSpace hdp) hdpn hw6 hw6n
    (all_digit_all_nonSpace hfk) hfkn hw7
  have hA : condA (⟨s0, dir, w3, ft, w4, op, w5, dp, w6, fk, w7, [], [],
      []⟩ : Spans) = false := by
    simp [condA]
  have hB : condB (⟨s0, dir, w3, ft, w4, op, w5, dp, w6, fk, w7, [], [],
      []⟩ : Spans) = true := by
    simp [condB, isEmpty_false_of_ne_nil hs0n,
      isEmpty_false_of_ne_nil hdirn, isEmpty_false_of_ne_nil hftn,
      isEmpty_false_of_ne_nil hopn, isEmpty_false_of_ne_nil hdpn,
      isEmpty_false_of_ne_nil hfkn, hdp, hfk]
  simp only [set_raw]
  rw [if_neg (by simp [hbc])]
  rw [hS]
  rw [if_neg (by simp [hA])]
  rw [if_pos (by simp [hB])]
  simp [entryB]

theorem strExt {s t : String} (h : s.data = t.data) : s = t := by
  cases s; cases t; cases h; rfl

theorem strDataAppend (a b : String) : (a ++ b).data = a.data ++ b.data :=
  rfl

theorem ne_nil_of_isEmpty_false {α : Type} {l : List α}
    (h : l.isEmpty = false) : l ≠ [] := by
  cases l with
  | nil => simp at h
  | cons x xs => simp

theorem condA_parts {S : Spans} (h : condA S = true) :
    S.t1 ≠ [] ∧ S.t2 ≠ [] ∧ S.t3 ≠ [] ∧ S.t4 ≠ [] ∧ S.t5 ≠ [] ∧
    S.t6 ≠ [] ∧ S.rest = [] ∧ S.t5.all pyIsDigit = true ∧
    S.t6.all pyIsDigit = true := by
  simp only [condA, Bool.and_eq_true, Bool.not_eq_true'] at h
  obtain ⟨⟨⟨⟨⟨⟨⟨⟨h1, h2⟩, h3⟩, h4⟩, h5⟩, h6⟩, h7⟩, h8⟩, h9⟩ := h
  exact ⟨ne_nil_of_isEmpty_false h1, ne_nil_of_isEmpty_false h2,
    ne_nil_of_isEmpty_false h3, ne_nil_of_isEmpty_false h4,
    ne_nil_of_isEmpty_false h5, ne_nil_of_isEmpty_false h6,
    List.isEmpty_iff.mp h7, h8, h9⟩

theorem condB_parts {S : Spans} (h : condB S = true) :
    S.s0 ≠ [] ∧ S.t1 ≠ [] ∧ S.t2 ≠ [] ∧ S.t3 ≠ [] ∧ S.t4 ≠ [] ∧
    S.t5 ≠ [] ∧ S.t6 = [] ∧ S.t4.all pyIsDigit = true ∧
    S.t5.all pyIsDigit = true := by
  simp only [condB, Bool.and_eq_true, Bool.not_eq_true'] at h
  obtain ⟨⟨⟨⟨⟨⟨⟨⟨h1, h2⟩, h3⟩, h4⟩, h5⟩, h6⟩, h7⟩, h8⟩, h9⟩ := h
  exact ⟨ne_nil_of_isEmpty_false h1, ne_nil_of_isEmpty_false h2,
    ne_nil_of_isEmpty_false h3, ne_nil_of_isEmpty_false h4,
    ne_nil_of_isEmpty_false h5, ne_nil_of_isEmpty_false h6,
    List.isEmpty_iff.mp h7, h8, h9⟩

theorem get_raw_set_raw (raw : String) : get_raw (set_raw raw) = raw := by
  by_cases hbc : blankOrComment raw = true
  · simp [set_raw, hbc, get_raw, plainLine]
  · have hbc2 : blankOrComment raw = false := by
      simpa using hbc
    simp only [set_raw]
    rw [if_neg (by simp [hbc2])]
    by_cases hA : condA (mkSpans raw.data) = true
    · rw [if_pos (by simp [hA])]
      apply strExt
      have hrest : (mkSpans raw.data).rest = [] := (condA_parts hA).2.2.2.2.2.2.1
      have hc := mkSpans_concat raw.data
      rw [hrest, List.append_nil] at hc
      simpa [get_raw, entryA, strDataAppend] using hc
    · rw [if_neg (by simp [hA])]
      by_cases hB : condB (mkSpans raw.data) = true
      · rw [if_pos (by simp [hB])]
        apply strExt
        have hp := condB_parts hB
        obtain ⟨hs6, hrest⟩ := mkSpans_t6_empty raw.data hp.2.2.2.2.2.2.1
        have hc := mkSpans_concat raw.data
        rw [hp.2.2.2.2.2.2.1, hs6, hrest] at hc
        simp only [List.append_nil, List.nil_append] at hc
        simp only [get_raw, entryB, Option.isSome_some, if_true,
          Option.getD_some, strDataAppend]
        simp only [show ∀ l : List Char, (String.mk l).data = l from
          fun _ => rfl, show ("" : String).data = [] from rfl,
          List.nil_append]
        rw [← List.append_assoc]
        rw [dropLast_append_lastRun hp.1]
        exact hc
      · rw [if_neg (by simp [hB])]
        simp [get_raw, plainLine]

theorem grammar_of_entry (raw : String) (hbc : blankOrComment raw = false)
    (h : has_filesystem (set_raw raw) = true) : MatchesGrammar raw.data := by
  simp only [set_raw] at h
  rw [if_neg (by simp [hbc])] at h
  by_cases hA : condA (mkSpans raw.data) = true
  · rw [if_pos (by simp [hA])] at h
    have hp := condA_parts hA
    have hc := mkSpans_concat raw.data
    rw [hp.2.2.2.2.2.2.1, List.append_nil] at hc
    refine ⟨(mkSpans raw.data).s0, (mkSpans raw.data).t1,
      (mkSpans raw.data).s1, (mkSpans raw.data).t2, (mkSpans raw.data).s2,
      (mkSpans raw.data).t3, (mkSpans raw.data).s3, (mkSpans raw.data).t4,
      (mkSpans raw.data).s4, (mkSpans raw.data).t5, (mkSpans raw.data).s5,
      (mkSpans raw.data).t6, (mkSpans raw.data).s6,
      hc.symm, mkSpans_s0_space raw.data, mkSpans_t1_tok raw.data,
      mkSpans_s1_space raw.data, mkSpans_s1_ne raw.data hp.2.1,
      mkSpans_t2_tok raw.data, hp.2.1,
      mkSpans_s2_space raw.data, mkSpans_s2_ne raw.data hp.2.2.1,
      mkSpans_t3_tok raw.data, hp.2.2.1,
      mkSpans_s3_space raw.data, mkSpans_s3_ne raw.data hp.2.2.2.1,
      mkSpans_t4_tok raw.data, hp.2.2.2.1,
      mkSpans_s4_space raw.data, mkSpans_s4_ne raw.data hp.2.2.2.2.1,
      hp.2.2.2.2.2.2.2.1, hp.2.2.2.2.1,
      mkSpans_s5_space raw.data, mkSpans_s5_ne raw.data hp.2.2.2.2.2.1,
      hp.2.2.2.2.2.2.2.2, hp.2.2.2.2.2.1,
      mkSpans_s6_space raw.data⟩
  · rw [if_neg (by simp [hA])] at h
    by_cases hB : condB (mkSpans raw.data) = true
    · have hp := condB_parts hB
      obtain ⟨hs6, hrest⟩ := mkSpans_t6_empty raw.data hp.2.2.2.2.2.2.1
      have hc := mkSpans_concat raw.data
      rw [hp.2.2.2.2.2.2.1, hs6, hrest] at hc
      simp only [List.append_nil, List.nil_append] at hc
      refine ⟨(mkSpans raw.data).s0.dropLast, [],
        lastRun (mkSpans raw.data).s0, (mkSpans raw.data).t1,
        (mkSpans raw.data).s1, (mkSpans raw.data).t2,
        (mkSpans raw.data).s2, (mkSpans raw.data).t3,
        (mkSpans raw.data).s3, (mkSpans raw.data).t4,
        (mkSpans raw.data).s4, (mkSpans raw.data).t5,
        (mkSpans raw.data).s5, ?_,
        all_dropLast (mkSpans_s0_space raw.data), rfl,
        all_lastRun (mkSpans_s0_space raw.data), lastRun_ne_nil hp.1,
        mkSpans_t1_tok raw.data, hp.2.1,
        mkSpans_s1_space raw.data, mkSpans_s1_ne raw.data hp.2.2.1,
        mkSpans_t2_tok raw.data, hp.2.2.1,
        mkSpans_s2_space raw.data, mkSpans_s2_ne raw.data hp.2.2.2.1,
        mkSpans_t3_tok raw.data, hp.2.2.2.1,
        mkSpans_s3_space raw.data, mkSpans_s3_ne raw.data hp.2.2.2.2.1,
        hp.2.2.2.2.2.2.2.1, hp.2.2.2.2.1,
        mkSpans_s4_space raw.data, mkSpans_s4_ne raw.data hp.2.2.2.2.2.1,
        hp.2.2.2.2.2.2.2.2, hp.2.2.2.2.2.1,
        mkSpans_s5_space raw.data⟩
      rw [List.nil_append, ← List.append_assoc,
        dropLast_append_lastRun hp.1]
      exact hc.symm
    · rw [if_neg (by simp [hB])] at h
      simp [plainLine, has_filesystem] at h

theorem entry_of_grammar (raw : String) (hbc : blankOrComment raw = false)
    (h : MatchesGrammar raw.data) : has_filesystem (set_raw raw) = true := by
  obtain ⟨w1, dev, w2, dir, w3, ft, w4, op, w5, dp, w6, fk, w7, heq, hw1,
    hdev, hw2, hw2n, hdir, hdirn, hw3, hw3n, hft, hftn, hw4, hw4n, hop,
    hopn, hw5, hw5n, hdp, hdpn, hw6, hw6n, hfk, hfkn, hw7⟩ := h
  by_cases hdevn : dev = []
  · subst hdevn
    have heq2 : raw.data = (w1 ++ w2) ++ (dir ++ (w3 ++ (ft ++ (w4 ++
        (op ++ (w5 ++ (dp ++ (w6 ++ (fk ++ w7))))))))) := by
      rw [heq]
      simp only [List.nil_append]
      rw [← List.append_assoc]
    have hraw : raw = ⟨(w1 ++ w2) ++ (dir ++ (w3 ++ (ft ++ (w4 ++ (op ++
        (w5 ++ (dp ++ (w6 ++ (fk ++ w7)))))))))⟩ := strExt heq2
    rw [hraw] at hbc ⊢
    rw [set_raw_eq5 (w1 ++ w2) dir w3 ft w4 op w5 dp w6 fk w7 hbc
      (by simp [List.all_append] at hw1 hw2 ⊢; exact ⟨hw1, hw2⟩)
      (by simp [List.append_eq_nil]; intro _ e; exact hw2n e)
      hdir hdirn hw3 hw3n hft hftn hw4 hw4n hop hopn hw5 hw5n hdp hdpn
      hw6 hw6n hfk hfkn hw7]
    rfl
  · have hraw : raw = ⟨w1 ++ (dev ++ (w2 ++ (dir ++ (w3 ++ (ft ++ (w4 ++
        (op ++ (w5 ++ (dp ++ (w6 ++ (fk ++ w7)))))))))))⟩ := strExt heq
    rw [hraw] at hbc ⊢
    rw [set_raw_eq6 w1 dev w2 dir w3 ft w4 op w5 dp w6 fk w7 hbc hw1
      hdev hdevn hw2 hw2n hdir hdirn hw3 hw3n hft hftn hw4 hw4n hop hopn
      hw5 hw5n hdp hdpn hw6 hw6n hfk hfkn hw7]
    rfl

theorem set_raw_plain_of_not_entry (raw : String)
    (h : has_filesystem (set_raw raw) = false) :
    set_raw raw = plainLine raw := by
  simp only [set_raw] at h ⊢
  by_cases hbc : blankOrComment raw = true
  · rw [if_pos (by simp [hbc])]
  · rw [if_neg (by simp [hbc])] at h ⊢
    by_cases hA : condA (mkSpans raw.data) = true
    · rw [if_pos (by simp [hA])] at h
      simp [entryA, has_filesystem] at h
    · rw [if_neg (by simp [hA])] at h ⊢
      by_cases hB : condB (mkSpans raw.data) = true
      · rw [if_pos (by simp [hB])] at h
        simp [entryB, has_filesystem] at h
      · rw [if_neg (by simp [hB])]

theorem delete_entry_cons_skip (x y : LineState) (ys : List LineState)
    (d : String) (hm : lineMatches d x = true) :
    delete_entry (x :: (y :: ys)) d = y :: delete_entry ys d := by
  simp [delete_entry, hm]

theorem delete_entry_single (x : LineState) (d : String)
    (hm : lineMatches d x = true) : delete_entry [x] d = [] := by
  unfold delete_entry
  simp [hm]

theorem delete_entry_cons_keep (x : LineState) (xs : List LineState)
    (d : String) (hm : lineMatches d x = false) :
    delete_entry (x :: xs) d = x :: delete_entry xs d := by
  cases xs with
  | nil => simp [delete_entry, hm]
  | cons y ys => simp [delete_entry, hm]

theorem countFor_cons (x : LineState) (xs : List LineState) (d : String) :
    countFor (x :: xs) d =
      countFor xs d + (if lineMatches d x = true then 1 else 0) := by
  simp [countFor, List.countP_cons]

theorem countFor_cons_pos {x : LineState} {d : String}
    (xs : List LineState) (hm : lineMatches d x = true) :
    countFor (x :: xs) d = countFor xs d + 1 := by
  simp [countFor, List.countP_cons, hm]

theorem countFor_cons_neg {x : LineState} {d : String}
    (xs : List LineState) (hm : lineMatches d x = false) :
    countFor (x :: xs) d = countFor xs d := by
  simp [countFor, List.countP_cons, hm]

theorem delete_entry_noop (lines : List LineState) (d : String)
    (h : ∀ x ∈ lines, lineMatches d x = false) :
    delete_entry lines d = lines := by
  induction lines with
  | nil => rfl
  | cons x xs ih =>
    have hx : lineMatches d x = false := h x (by simp)
    rw [delete_entry_cons_keep x xs d hx]
    rw [ih (fun z hz => h z (by simp [hz]))]

theorem delete_entry_sublist (lines : List LineState) (d : String) :
    (delete_entry lines d).Sublist lines := by
  induction lines, d using delete_entry.induct with
  | case1 d => simp [delete_entry]
  | case2 x d hm =>
    rw [delete_entry_single x d hm]
    simp
  | case3 x d hm y ys ih =>
    rw [delete_entry_cons_skip x y ys d hm]
    exact (ih.cons₂ y).cons x
  | case4 x xs d hm ih =>
    rw [delete_entry_cons_keep x xs d (by simpa using hm)]
    exact ih.cons₂ x

theorem delete_entry_keeps_nonmatching (lines : List LineState)
    (d : String) :
    (delete_entry lines d).countP (fun x => !lineMatches d x) =
      lines.countP (fun x => !lineMatches d x) := by
  induction lines, d using delete_entry.induct with
  | case1 d => rfl
  | case2 x d hm =>
    rw [delete_entry_single x d hm]
    simp [List.countP_cons, hm]
  | case3 x d hm y ys ih =>
    rw [delete_entry_cons_skip x y ys d hm]
    simp [List.countP_cons, hm, ih]
  | case4 x xs d hm ih =>
    rw [delete_entry_cons_keep x xs d (by simpa using hm)]
    simp [List.countP_cons, hm, ih]

theorem delete_entry_countFor_le (lines : List LineState) (d : String) :
    countFor (delete_entry lines d) d ≤ countFor lines d := by
  induction lines, d using delete_entry.induct with
  | case1 d => simp [delete_entry]
  | case2 x d hm =>
    rw [delete_entry_single x d hm]
    simp [countFor]
  | case3 x d hm y ys ih =>
    rw [delete_entry_cons_skip x y ys d hm]
    rw [countFor_cons, countFor_cons_pos (y :: ys) hm, countFor_cons]
    omega
  | case4 x xs d hm ih =>
    rw [delete_entry_cons_keep x xs d (by simpa using hm)]
    rw [countFor_cons, countFor_cons]
    omega

theorem delete_entry_count_lt (lines : List LineState) (d : String)
    (h : ∃ x ∈ lines, lineMatches d x = true) :
    countFor (delete_entry lines d) d < countFor lines d := by
  induction lines, d using delete_entry.induct with
  | case1 d => simp at h
  | case2 x d hm =>
    rw [delete_entry_single x d hm]
    simp [countFor, List.countP_cons, hm]
  | case3 x d hm y ys ih =>
    rw [delete_entry_cons_skip x y ys d hm]
    have hle := delete_entry_countFor_le ys d
    rw [countFor_cons, countFor_cons_pos (y :: ys) hm, countFor_cons]
    omega
  | case4 x xs d hm ih =>
    rw [delete_entry_cons_keep x xs d (by simpa using hm)]
    have hxs : ∃ z ∈ xs, lineMatches d z = true := by
      obtain ⟨z, hz, hzm⟩ := h
      rcases List.mem_cons.mp hz with h1 | h2
      · subst h1; exact absurd hzm hm
      · exact ⟨z, h2, hzm⟩
    have := ih hxs
    rw [countFor_cons, countFor_cons]
    omega

theorem delete_entry_count_zero (lines : List LineState) (d : String)
    (h : countFor lines d ≤ 1) :
    countFor (delete_entry lines d) d = 0 := by
  induction lines, d using delete_entry.induct with
  | case1 d => rfl
  | case2 x d hm =>
    rw [delete_entry_single x d hm]
    rfl
  | case3 x d hm y ys ih =>
    rw [delete_entry_cons_skip x y ys d hm]
    have hle := delete_entry_countFor_le ys d
    rw [countFor_cons_pos (y :: ys) hm, countFor_cons] at h
    rw [countFor_cons]
    omega
  | case4 x xs d hm ih =>
    rw [delete_entry_cons_keep x xs d (by simpa using hm)]
    have hm2 : lineMatches d x = false := by simpa using hm
    rw [countFor_cons_neg xs hm2] at h
    have := ih (by omega)
    rw [countFor_cons_neg (delete_entry xs d) hm2]
    omega

theorem get_entry_none_iff (lines : List LineState) (d : String) :
    get_entry lines d = none ↔ ∀ x ∈ lines, lineMatches d x = false := by
  simp [get_entry, List.find?_eq_none]

theorem countFor_zero_iff (lines : List LineState) (d : String) :
    countFor lines d = 0 ↔ ∀ x ∈ lines, lineMatches d x = false := by
  simp [countFor, List.countP_eq_zero]

theorem add_entry_count (lines : List LineState)
    (dev mp ft opts : String) (dp fk : Int)
    (h : countFor lines mp ≤ 1) :
    countFor (add_entry lines dev mp ft opts dp fk) mp =
      countFor [set_raw (pyFormatEntry dev mp ft opts dp fk)] mp := by
  simp only [add_entry]
  by_cases hg : (get_entry lines mp).isSome = true
  · rw [if_pos hg]
    simp only [countFor, List.countP_append]
    have := delete_entry_count_zero lines mp h
    simp only [countFor] at this
    rw [this, Nat.zero_add]
  · rw [if_neg hg]
    have hnone : get_entry lines mp = none := by
      cases he : get_entry lines mp with
      | none => rfl
      | some v => rw [he] at hg; simp at hg
    have h0 : countFor lines mp = 0 :=
      (countFor_zero_iff lines mp).mpr
        ((get_entry_none_iff lines mp).mp hnone)
    simp only [countFor, List.countP_append] at h0 ⊢
    rw [h0, Nat.zero_add]

theorem setContentAt_names (fs : FSState) (p : String) (s : String) :
    (setContentAt fs p s).names = fs.names := by
  unfold setContentAt
  cases h : fs.names p with
  | none => rfl
  | some i =>
    cases h2 : fs.inodes i with
    | none => simp [h2]
    | some cm => simp [h2]

theorem chmodAt_names (fs : FSState) (p : String) (m : Nat) :
    (chmodAt fs p m).names = fs.names := by
  unfold chmodAt
  cases h : fs.names p with
  | none => rfl
  | some i =>
    cases h2 : fs.inodes i with
    | none => simp [h2]
    | some cm => simp [h2]

theorem delName_inodes (fs : FSState) (p : String) :
    (delName fs p).inodes = fs.inodes := rfl

theorem delName_names_ne (fs : FSState) (p q : String) (h : q ≠ p) :
    (delName fs p).names q = fs.names q := by
  simp [delName, h]

theorem linkNames_inodes (fs : FSState) (a b : String) :
    (linkNames fs a b).inodes = fs.inodes := by
  unfold linkNames
  cases h : fs.names a with
  | none => rfl
  | some i => rfl

theorem renameFile_inodes (fs : FSState) (a b : String) :
    (renameFile fs a b).inodes = fs.inodes := by
  unfold renameFile
  cases h : fs.names a with
  | none => rfl
  | some i => rfl

theorem createFile_names_self (fs : FSState) (p c : String) (m : Nat) :
    (createFile fs p c m).names p = some fs.nextInode := by
  simp [createFile]

theorem createFile_names_ne (fs : FSState) (p c : String) (m : Nat)
    (q : String) (h : q ≠ p) :
    (createFile fs p c m).names q = fs.names q := by
  simp [createFile, h]

theorem createFile_inodes_self (fs : FSState) (p c : String) (m : Nat) :
    (createFile fs p c m).inodes fs.nextInode = some (c, m) := by
  simp [createFile]

theorem createFile_inodes_ne (fs : FSState) (p c : String) (m : Nat)
    (j : Nat) (h : j ≠ fs.nextInode) :
    (createFile fs p c m).inodes j = fs.inodes j := by
  simp [createFile, h]

theorem setContentAt_inodes_self (fs : FSState) (p : String) (s : String)
    (i : Nat) (c0 : String) (m0 : Nat) (hn : fs.names p = some i)
    (hi : fs.inodes i = some (c0, m0)) :
    (setContentAt fs p s).inodes i = some (s, m0) := by
  unfold setContentAt
  rw [hn]
  simp [hi]

theorem setContentAt_inodes_ne (fs : FSState) (p : String) (s : String)
    (i : Nat) (j : Nat) (hn : fs.names p = some i) (h : j ≠ i) :
    (setContentAt fs p s).inodes j = fs.inodes j := by
  unfold setContentAt
  rw [hn]
  cases h2 : fs.inodes i with
  | none => simp [h2]
  | some cm => simp [h2, h]

theorem chmodAt_inodes_self (fs : FSState) (p : String) (m : Nat)
    (i : Nat) (c0 : String) (m0 : Nat) (hn : fs.names p = some i)
    (hi : fs.inodes i = some (c0, m0)) :
    (chmodAt fs p m).inodes i = some (c0, m) := by
  unfold chmodAt
  rw [hn]
  simp [hi]

theorem chmodAt_inodes_ne (fs : FSState) (p : String) (m : Nat)
    (i : Nat) (j : Nat) (hn : fs.names p = some i) (h : j ≠ i) :
    (chmodAt fs p m).inodes j = fs.inodes j := by
  unfold chmodAt
  rw [hn]
  cases h2 : fs.inodes i with
  | none => simp [h2]
  | some cm => simp [h2, h]

theorem linkNames_names_new (fs : FSState) (a b : String) (i : Nat)
    (hn : fs.names a = some i) : (linkNames fs a b).names b = some i := by
  unfold linkNames
  rw [hn]
  simp

theorem linkNames_names_ne (fs : FSState) (a b : String) (q : String)
    (h : q ≠ b) : (linkNames fs a b).names q = fs.names q := by
  unfold linkNames
  cases hn : fs.names a with
  | none => rfl
  | some i => simp [h]

theorem renameFile_names_new (fs : FSState) (a b : String) (i : Nat)
    (hn : fs.names a = some i) : (renameFile fs a b).names b = some i := by
  unfold renameFile
  rw [hn]
  simp

theorem renameFile_names_ne (fs : FSState) (a b : String) (q : String)
    (h1 : q ≠ b) (h2 : q ≠ a) :
    (renameFile fs a b).names q = fs.names q := by
  unfold renameFile
  cases hn : fs.names a with
  | none => rfl
  | some i => simp [h1, h2]

theorem bak_ne_self (fn : String) : fn ++ ".bak" ≠ fn := by
  intro h
  have h2 := congrArg String.length h
  rw [String.length_append] at h2
  have h3 : (".bak" : String).length = 4 := rfl
  omega

theorem link_rename_char (g : FSState) (temp fn : String)
    (nxt ifn : Nat) (rc cfn : String) (mm : Nat)
    (htfn : temp ≠ fn) (htbak : temp ≠ fn ++ ".bak")
    (hgt : g.names temp = some nxt)
    (hgf : g.names fn = some ifn)
    (hit : g.inodes nxt = some (rc, mm))
    (hif : g.inodes ifn = some (cfn, mm)) :
    (renameFile (linkNames g fn (fn ++ ".bak")) temp fn).names fn =
      some nxt ∧
    (renameFile (linkNames g fn (fn ++ ".bak")) temp fn).inodes nxt =
      some (rc, mm) ∧
    (renameFile (linkNames g fn (fn ++ ".bak")) temp fn).names
      (fn ++ ".bak") = some ifn ∧
    (renameFile (linkNames g fn (fn ++ ".bak")) temp fn).inodes ifn =
      some (cfn, mm) := by
  have h4t : (linkNames g fn (fn ++ ".bak")).names temp = some nxt := by
    rw [linkNames_names_ne g fn (fn ++ ".bak") temp htbak]
    exact hgt
  have h4bak : (linkNames g fn (fn ++ ".bak")).names (fn ++ ".bak") =
      some ifn := linkNames_names_new g fn (fn ++ ".bak") ifn hgf
  refine ⟨renameFile_names_new _ temp fn nxt h4t, ?_, ?_, ?_⟩
  · rw [renameFile_inodes, linkNames_inodes]
    exact hit
  · rw [renameFile_names_ne _ temp fn (fn ++ ".bak") (bak_ne_self fn)
      (Ne.symm htbak)]
    exact h4bak
  · rw [renameFile_inodes, linkNames_inodes]
    exact hif

theorem writeFs_ok_char (failAt : Nat → Bool) (temp : String)
    (lines : List LineState) (fn : String) (fs fsr : FSState)
    (hWF : FSWF fs) (ht1 : temp ≠ fn) (ht2 : temp ≠ fn ++ ".bak")
    (hok : writeFs failAt temp lines fn fs = .ok fsr) :
    ∃ ifn cfn m, fs.names fn = some ifn ∧
      fs.inodes ifn = some (cfn, m) ∧
      fsr.names fn = some fs.nextInode ∧
      fsr.inodes fs.nextInode = some (renderTable lines, m) ∧
      fsr.names (fn ++ ".bak") = some ifn ∧
      fsr.inodes ifn = some (cfn, m) := by
  have hn0t : (createFile fs temp "" 384).names temp = some fs.nextInode :=
    createFile_names_self fs temp "" 384
  have hn1 := setContentAt_names (createFile fs temp "" 384) temp
    (renderTable lines)
  have hn1t : (setContentAt (createFile fs temp "" 384) temp
      (renderTable lines)).names temp = some fs.nextInode := by
    rw [hn1]; exact hn0t
  have hn1fn : (setContentAt (createFile fs temp "" 384) temp
      (renderTable lines)).names fn = fs.names fn := by
    rw [hn1]
    exact createFile_names_ne fs temp "" 384 fn (Ne.symm ht1)
  simp only [writeFs] at hok
  split at hok
  · simp at hok
  · split at hok
    · simp at hok
    · split at hok
      · simp at hok
      · rename_i m hperm
        split at hok
        · simp at hok
        · split at hok
          · simp at hok
          · -- extract the target file facts from the stat result
            rw [permsAt, hn1fn] at hperm
            cases hfn : fs.names fn with
            | none => rw [hfn] at hperm; simp at hperm
            | some ifn =>
              rw [hfn] at hperm
              simp only [Option.some_bind] at hperm
              have hlt : ifn < fs.nextInode := hWF fn ifn hfn
              have hino_base : (setContentAt (createFile fs temp "" 384)
                  temp (renderTable lines)).inodes ifn = fs.inodes ifn := by
                rw [setContentAt_inodes_ne (createFile fs temp "" 384)
                  temp (renderTable lines) fs.nextInode ifn hn0t
                  (Nat.ne_of_lt hlt)]
                exact createFile_inodes_ne fs temp "" 384 ifn
                  (Nat.ne_of_lt hlt)
              cases hino : (setContentAt (createFile fs temp "" 384) temp
                  (renderTable lines)).inodes ifn with
              | none => rw [hino] at hperm; simp at hperm
              | some cm =>
                rw [hino] at hperm
                simp only [Option.map_some'] at hperm
                obtain ⟨cfn, m2⟩ := cm
                have hm2 : m2 = m := by simpa using hperm
                subst m2
                have hbase : fs.inodes ifn = some (cfn, m) := by
                  rw [← hino_base]; exact hino
                have hi1t : (setContentAt (createFile fs temp "" 384) temp
                    (renderTable lines)).inodes fs.nextInode =
                    some (renderTable lines, 384) :=
                  setContentAt_inodes_self (createFile fs temp "" 384)
                    temp (renderTable lines) fs.nextInode "" 384 hn0t
                    (createFile_inodes_self fs temp "" 384)
                -- facts about the chmodded state
                have hn2 := chmodAt_names (setContentAt
                  (createFile fs temp "" 384) temp (renderTable lines))
                  temp m
                have hn2t : (chmodAt (setContentAt
                    (createFile fs temp "" 384) temp (renderTable lines))
                    temp m).names temp = some fs.nextInode := by
                  rw [hn2]; exact hn1t
                have hn2fn : (chmodAt (setContentAt
                    (createFile fs temp "" 384) temp (renderTable lines))
                    temp m).names fn = some ifn := by
                  rw [hn2, hn1fn]; exact hfn
                have hi2t : (chmodAt (setContentAt
                    (createFile fs temp "" 384) temp (renderTable lines))
                    temp m).inodes fs.nextInode =
                    some (renderTable lines, m) :=
                  chmodAt_inodes_self _ temp m fs.nextInode
                    (renderTable lines) 384 hn1t hi1t
                have hi2f : (chmodAt (setContentAt
                    (createFile fs temp "" 384) temp (renderTable lines))
                    temp m).inodes ifn = some (cfn, m) := by
                  rw [chmodAt_inodes_ne _ temp m fs.nextInode ifn hn1t
                    (Nat.ne_of_lt hlt)]
                  rw [hino_base]
                  exact hbase
                refine ⟨ifn, cfn, m, rfl, hbase, ?_⟩
                split at hok
                · -- a backup already exists and is removed first
                  split at hok
                  · simp at hok
                  · split at hok
                    · simp at hok
                    · split at hok
                      · simp at hok
                      · have hfsr : renameFile (linkNames (delName
                            (chmodAt (setContentAt (createFile fs temp ""
                            384) temp (renderTable lines)) temp m)
                            (fn ++ ".bak")) fn (fn ++ ".bak")) temp fn =
                            fsr := by
                          simpa using hok
                        rw [← hfsr]
                        have hdt : (delName (chmodAt (setContentAt
                            (createFile fs temp "" 384) temp
                            (renderTable lines)) temp m)
                            (fn ++ ".bak")).names temp =
                            some fs.nextInode := by
                          rw [delName_names_ne _ _ temp ht2]
                          exact hn2t
                        have hdf : (delName (chmodAt (setContentAt
                            (createFile fs temp "" 384) temp
                            (renderTable lines)) temp m)
                            (fn ++ ".bak")).names fn = some ifn := by
                          rw [delName_names_ne _ _ fn
                            (Ne.symm (bak_ne_self fn))]
                          exact hn2fn
                        have := link_rename_char _ temp fn fs.nextInode
                          ifn (renderTable lines) cfn m ht1 ht2 hdt hdf
                          (by rw [delName_inodes]; exact hi2t)
                          (by rw [delName_inodes]; exact hi2f)
                        exact this
                · -- no pre-existing backup
                  split at hok
                  · simp at hok
                  · split at hok
                    · simp at hok
                    · have hfsr : renameFile (linkNames (chmodAt
                          (setContentAt (createFile fs temp "" 384) temp
                          (renderTable lines)) temp m) fn (fn ++ ".bak"))
                          temp fn = fsr := by
                        simpa using hok
                      rw [← hfsr]
                      exact link_rename_char _ temp fn fs.nextInode ifn
                        (renderTable lines) cfn m ht1 ht2 hn2t hn2fn
                        hi2t hi2f

theorem contentAt_eq_of (fs fs2 : FSState) (p : String)
    (hn : fs2.names p = fs.names p)
    (hi : ∀ i, fs.names p = some i → fs2.inodes i = fs.inodes i) :
    contentAt fs2 p = contentAt fs p ∧ permsAt fs2 p = permsAt fs p := by
  unfold contentAt permsAt
  rw [hn]
  cases h : fs.names p with
  | none => simp
  | some i => simp [hi i h]

theorem writeFs_err_char (failAt : Nat → Bool) (temp : String)
    (lines : List LineState) (fn : String) (fs fsE : FSState) (k : Nat)
    (hWF : FSWF fs) (ht1 : temp ≠ fn) (ht2 : temp ≠ fn ++ ".bak")
    (herr : writeFs failAt temp lines fn fs = .error (k, fsE)) :
    contentAt fsE fn = contentAt fs fn ∧
    permsAt fsE fn = permsAt fs fn ∧
    (1 ≤ k → (fsE.names temp).isSome = true) := by
  have hs1 : contentAt (createFile fs temp "" 384) fn = contentAt fs fn ∧
      permsAt (createFile fs temp "" 384) fn = permsAt fs fn :=
    contentAt_eq_of fs _ fn
      (createFile_names_ne fs temp "" 384 fn (Ne.symm ht1))
      (fun i hi => createFile_inodes_ne fs temp "" 384 i
        (Nat.ne_of_lt (hWF fn i hi)))
  have hn0t : (createFile fs temp "" 384).names temp = some fs.nextInode :=
    createFile_names_self fs temp "" 384
  have hs2 : contentAt (setContentAt (createFile fs temp "" 384) temp
      (renderTable lines)) fn = contentAt fs fn ∧
      permsAt (setContentAt (createFile fs temp "" 384) temp
      (renderTable lines)) fn = permsAt fs fn := by
    have step := contentAt_eq_of (createFile fs temp "" 384)
      (setContentAt (createFile fs temp "" 384) temp (renderTable lines))
      fn (by rw [setContentAt_names])
      (fun i hi => by
        have hbase : fs.names fn = some i := by
          rw [← createFile_names_ne fs temp "" 384 fn (Ne.symm ht1)]
          exact hi
        exact setContentAt_inodes_ne (createFile fs temp "" 384) temp
          (renderTable lines) fs.nextInode i hn0t
          (Nat.ne_of_lt (hWF fn i hbase)))
    exact ⟨step.1.trans hs1.1, step.2.trans hs1.2⟩
  have hn1t : (setContentAt (createFile fs temp "" 384) temp
      (renderTable lines)).names temp = some fs.nextInode := by
    rw [setContentAt_names]; exact hn0t
  simp only [writeFs] at herr
  split at herr
  · -- mkstemp itself fails: state unchanged
    have hk : k = 0 ∧ fsE = fs := by
      have := herr
      simp only [Except.error.injEq, Prod.mk.injEq] at this
      exact ⟨this.1.symm, this.2.symm⟩
    rw [hk.2]
    refine ⟨rfl, rfl, fun hge => ?_⟩
    rw [hk.1] at hge
    exact absurd hge (by omega)
  · split at herr
    · have hk : k = 1 ∧ fsE = createFile fs temp "" 384 := by
        simp only [Except.error.injEq, Prod.mk.injEq] at herr
        exact ⟨herr.1.symm, herr.2.symm⟩
      rw [hk.2]
      refine ⟨hs1.1, hs1.2, fun _ => ?_⟩
      rw [hn0t]
      rfl
    · split at herr
      · -- stat fails: the filled temporary file is left behind
        have hk : k = 2 ∧ fsE = setContentAt (createFile fs temp "" 384)
            temp (renderTable lines) := by
          simp only [Except.error.injEq, Prod.mk.injEq] at herr
          exact ⟨herr.1.symm, herr.2.symm⟩
        rw [hk.2]
        refine ⟨hs2.1, hs2.2, fun _ => ?_⟩
        rw [hn1t]
        rfl
      · rename_i m hperm
        split at herr
        · have hk : k = 2 ∧ fsE = setContentAt (createFile fs temp "" 384)
              temp (renderTable lines) := by
            simp only [Except.error.injEq, Prod.mk.injEq] at herr
            exact ⟨herr.1.symm, herr.2.symm⟩
          rw [hk.2]
          refine ⟨hs2.1, hs2.2, fun _ => ?_⟩
          rw [hn1t]
          rfl
        · split at herr
          · have hk : k = 3 ∧ fsE = setContentAt (createFile fs temp ""
                384) temp (renderTable lines) := by
              simp only [Except.error.injEq, Prod.mk.injEq] at herr
              exact ⟨herr.1.symm, herr.2.symm⟩
            rw [hk.2]
            refine ⟨hs2.1, hs2.2, fun _ => ?_⟩
            rw [hn1t]
            rfl
          · -- chmod has happened; facts about the chmodded state
            have hs3 : contentAt (chmodAt (setContentAt (createFile fs
                temp "" 384) temp (renderTable lines)) temp m) fn =
                contentAt fs fn ∧
                permsAt (chmodAt (setContentAt (createFile fs temp ""
                384) temp (renderTable lines)) temp m) fn =
                permsAt fs fn := by
              have step := contentAt_eq_of (setContentAt (createFile fs
                temp "" 384) temp (renderTable lines))
                (chmodAt (setContentAt (createFile fs temp "" 384) temp
                  (renderTable lines)) temp m)
                fn (by rw [chmodAt_names])
                (fun i hi => by
                  have hbase : fs.names fn = some i := by
                    rw [← createFile_names_ne fs temp "" 384 fn
                      (Ne.symm ht1), ← setContentAt_names
                      (createFile fs temp "" 384) temp
                      (renderTable lines)]
                    exact hi
                  exact chmodAt_inodes_ne _ temp m fs.nextInode i hn1t
                    (Nat.ne_of_lt (hWF fn i hbase)))
              exact ⟨step.1.trans hs2.1, step.2.trans hs2.2⟩
            have hn2t : (chmodAt (setContentAt (createFile fs temp ""
                384) temp (renderTable lines)) temp m).names temp =
                some fs.nextInode := by
              rw [chmodAt_names]; exact hn1t
            split at herr
            · split at herr
              · have hk : k = 4 ∧ fsE = chmodAt (setContentAt
                    (createFile fs temp "" 384) temp (renderTable lines))
                    temp m := by
                  simp only [Except.error.injEq, Prod.mk.injEq] at herr
                  exact ⟨herr.1.symm, herr.2.symm⟩
                rw [hk.2]
                refine ⟨hs3.1, hs3.2, fun _ => ?_⟩
                rw [hn2t]
                rfl
              · split at herr
                · have hk : k = 5 ∧ fsE = delName (chmodAt (setContentAt
                      (createFile fs temp "" 384) temp
                      (renderTable lines)) temp m) (fn ++ ".bak") := by
                    simp only [Except.error.injEq, Prod.mk.injEq] at herr
                    exact ⟨herr.1.symm, herr.2.symm⟩
                  rw [hk.2]
                  have step := contentAt_eq_of (chmodAt (setContentAt
                    (createFile fs temp "" 384) temp (renderTable lines))
                    temp m)
                    (delName (chmodAt (setContentAt (createFile fs temp
                      "" 384) temp (renderTable lines)) temp m)
                      (fn ++ ".bak")) fn
                    (delName_names_ne _ _ fn (Ne.symm (bak_ne_self fn)))
                    (fun i _ => by rw [delName_inodes])
                  refine ⟨step.1.trans hs3.1, step.2.trans hs3.2,
                    fun _ => ?_⟩
                  rw [delName_names_ne _ _ temp ht2, hn2t]
                  rfl
                · split at herr
                  · have hk : k = 6 ∧ fsE = linkNames (delName (chmodAt
                        (setContentAt (createFile fs temp "" 384) temp
                        (renderTable lines)) temp m) (fn ++ ".bak")) fn
                        (fn ++ ".bak") := by
                      simp only [Except.error.injEq, Prod.mk.injEq]
                        at herr
                      exact ⟨herr.1.symm, herr.2.symm⟩
                    rw [hk.2]
                    have step := contentAt_eq_of (delName (chmodAt
                      (setContentAt (createFile fs temp "" 384) temp
                      (renderTable lines)) temp m) (fn ++ ".bak"))
                      (linkNames (delName (chmodAt (setContentAt
                        (createFile fs temp "" 384) temp
                        (renderTable lines)) temp m) (fn ++ ".bak")) fn
                        (fn ++ ".bak")) fn
                      (linkNames_names_ne _ fn (fn ++ ".bak") fn
                        (Ne.symm (bak_ne_self fn)))
                      (fun i _ => by rw [linkNames_inodes])
                    have stepd := contentAt_eq_of (chmodAt (setContentAt
                      (createFile fs temp "" 384) temp
                      (renderTable lines)) temp m)
                      (delName (chmodAt (setContentAt (createFile fs temp
                        "" 384) temp (renderTable lines)) temp m)
                        (fn ++ ".bak")) fn
                      (delName_names_ne _ _ fn (Ne.symm (bak_ne_self fn)))
                      (fun i _ => by rw [delName_inodes])
                    refine ⟨(step.1.trans stepd.1).trans hs3.1,
                      (step.2.trans stepd.2).trans hs3.2, fun _ => ?_⟩
                    rw [linkNames_names_ne _ fn (fn ++ ".bak") temp ht2,
                      delName_names_ne _ _ temp ht2, hn2t]
                    rfl
                  · simp at herr
            · split at herr
              · have hk : k = 5 ∧ fsE = chmodAt (setContentAt
                    (createFile fs temp "" 384) temp (renderTable lines))
                    temp m := by
                  simp only [Except.error.injEq, Prod.mk.injEq] at herr
                  exact ⟨herr.1.symm, herr.2.symm⟩
                rw [hk.2]
                refine ⟨hs3.1, hs3.2, fun _ => ?_⟩
                rw [hn2t]
                rfl
              · split at herr
                · have hk : k = 6 ∧ fsE = linkNames (chmodAt
                      (setContentAt (createFile fs temp "" 384) temp
                      (renderTable lines)) temp m) fn (fn ++ ".bak") := by
                    simp only [Except.error.injEq, Prod.mk.injEq] at herr
                    exact ⟨herr.1.symm, herr.2.symm⟩
                  rw [hk.2]
                  have step := contentAt_eq_of (chmodAt (setContentAt
                    (createFile fs temp "" 384) temp (renderTable lines))
                    temp m)
                    (linkNames (chmodAt (setContentAt (createFile fs temp
                      "" 384) temp (renderTable lines)) temp m) fn
                      (fn ++ ".bak")) fn
                    (linkNames_names_ne _ fn (fn ++ ".bak") fn
                      (Ne.symm (bak_ne_self fn)))
                    (fun i _ => by rw [linkNames_inodes])
                  refine ⟨step.1.trans hs3.1, step.2.trans hs3.2,
                    fun _ => ?_⟩
                  rw [linkNames_names_ne _ fn (fn ++ ".bak") temp ht2,
                    hn2t]
                  rfl
                · simp at herr

theorem natDigitsAux_all (fuel n : Nat) :
    (natDigitsAux fuel n).all pyIsDigit = true := by
  induction fuel generalizing n with
  | zero => rfl
  | succ f ih =>
    unfold natDigitsAux
    by_cases h : n < 10
    · rw [if_pos h]
      have : pyIsDigit (Char.ofNat (48 + n)) = true := by
        interval_cases n <;> decide
      simp [this]
    · rw [if_neg h]
      rw [List.all_append]
      have hr : n % 10 < 10 := Nat.mod_lt n (by omega)
      have : pyIsDigit (Char.ofNat (48 + n % 10)) = true := by
        set r := n % 10 with hrr
        interval_cases r <;> decide
      simp [ih, this]

theorem natDigitsAux_ne (fuel n : Nat) (h : 1 ≤ fuel) :
    natDigitsAux fuel n ≠ [] := by
  cases fuel with
  | zero => omega
  | succ f =>
    unfold natDigitsAux
    by_cases hn : n < 10
    · simp [hn]
    · simp [hn]

theorem natDigits_all (n : Nat) : (natDigits n).all pyIsDigit = true :=
  natDigitsAux_all (n + 1) n

theorem natDigits_ne (n : Nat) : natDigits n ≠ [] :=
  natDigitsAux_ne (n + 1) n (by omega)

theorem pyStr_nonneg_data (i : Int) (h : 0 ≤ i) :
    (pyStr i).data = natDigits i.toNat := by
  unfold pyStr
  rw [if_neg (by omega)]

theorem dropWhile_decomp {α : Type} (p : α → Bool) (a : List α) :
    ∃ s, a = s ++ a.dropWhile p ∧ s.all p = true :=
  ⟨a.takeWhile p, (List.takeWhile_append_dropWhile p a).symm,
    List.all_takeWhile⟩

theorem pyStrip_head (l : List Char) (c : Char) (hc : l.head? = some c)
    (hns : pyIsSpace c = false) : (pyStrip l).head? = some c := by
  have hdw : l.dropWhile pyIsSpace = l := by
    cases l with
    | nil => rfl
    | cons x xs =>
      simp only [List.head?_cons, Option.some.injEq] at hc
      subst hc
      exact List.dropWhile_cons_of_neg (by simp [hns])
  unfold pyStrip
  rw [hdw]
  obtain ⟨s, hs, hall⟩ := dropWhile_decomp pyIsSpace l.reverse
  have hl : l = (l.reverse.dropWhile pyIsSpace).reverse ++ s.reverse := by
    have h2 := congrArg List.reverse hs
    simpa using h2
  cases hd : (l.reverse.dropWhile pyIsSpace).reverse with
  | nil =>
    rw [hd] at hl
    simp only [List.nil_append] at hl
    rw [hl] at hc
    have hmem : c ∈ s.reverse := by
      cases hsr : s.reverse with
      | nil => rw [hsr] at hc; simp at hc
      | cons y ys =>
        rw [hsr] at hc
        simp only [List.head?_cons, Option.some.injEq] at hc
        subst hc
        simp [hsr]
    have := (List.all_eq_true.mp (by simpa using hall)) c hmem
    rw [this] at hns
    cases hns
  | cons x xs =>
    rw [hd] at hl
    rw [hl] at hc
    simpa using hc

theorem blankOrComment_token_false (l : List Char) (c : Char)
    (hc : l.head? = some c) (hns : pyIsSpace c = false)
    (hch : c ≠ '#') : blankOrComment ⟨l⟩ = false := by
  have h1 : (pyStrip l).head? = some c := pyStrip_head l c hc hns
  have h2 : (pyStrip l).isEmpty = false := by
    cases hstrip : pyStrip l with
    | nil => rw [hstrip] at h1; simp at h1
    | cons y ys => rfl
  unfold blankOrComment
  have h3 : (String.mk l).data = l := rfl
  rw [h3, h1, h2]
  simp [hch]

theorem strMkData (s : String) : String.mk s.data = s := by
  cases s
  rfl

theorem pyFormatEntry_data (dev mp ft opts : String) (dp fk : Int) :
    pyFormatEntry dev mp ft opts dp fk =
      ⟨[] ++ (dev.data ++ ([' '] ++ (mp.data ++ ([' '] ++ (ft.data ++
        ([' '] ++ (opts.data ++ ([' '] ++ ((pyStr dp).data ++ ([' '] ++
        ((pyStr fk).data ++ ['\n'])))))))))))⟩ := by
  apply strExt
  simp only [pyFormatEntry, strDataAppend]
  rfl

theorem head_format (dev : String) (c : Char) (rest : List Char)
    (hd : dev.data = c :: rest) (hall : dev.data.all nonSpace = true)
    (hch : dev.data.head? ≠ some '#') (tail : List Char) :
    ([] ++ (dev.data ++ tail)).head? = some c ∧ pyIsSpace c = false ∧
      c ≠ '#' := by
  refine ⟨by simp [hd], ?_, ?_⟩
  · exact head_of_all_nonSpace hall c (by simp [hd])
  · intro he
    subst he
    exact hch (by simp [hd])

theorem set_raw_format (dev mp ft opts : String) (dp fk : Int)
    (hdev1 : dev.data ≠ []) (hdev2 : dev.data.all nonSpace = true)
    (hdev3 : dev.data.head? ≠ some '#')
    (hmp1 : mp.data ≠ []) (hmp2 : mp.data.all nonSpace = true)
    (hft1 : ft.data ≠ []) (hft2 : ft.data.all nonSpace = true)
    (hop1 : opts.data ≠ []) (hop2 : opts.data.all nonSpace = true)
    (hdp : 0 ≤ dp) (hfk : 0 ≤ fk) :
    set_raw (pyFormatEntry dev mp ft opts dp fk) =
      ⟨some "", some dev, some " ", some mp, some " ", some ft, some " ",
       some opts, some " ", some (pyStr dp), some " ", some (pyStr fk),
       some "\n", pyFormatEntry dev mp ft opts dp fk⟩ := by
  obtain ⟨c, rest, hd⟩ : ∃ c rest, dev.data = c :: rest := by
    cases hdd : dev.data with
    | nil => exact absurd hdd hdev1
    | cons c cs => exact ⟨c, cs, rfl⟩
  have hhead := head_format dev c rest hd hdev2 hdev3
    ([' '] ++ (mp.data ++ ([' '] ++ (ft.data ++ ([' '] ++ (opts.data ++
      ([' '] ++ ((pyStr dp).data ++ ([' '] ++ ((pyStr fk).data ++
      ['\n']))))))))))
  have hbc : blankOrComment ⟨[] ++ (dev.data ++ ([' '] ++ (mp.data ++
      ([' '] ++ (ft.data ++ ([' '] ++ (opts.data ++ ([' '] ++
      ((pyStr dp).data ++ ([' '] ++ ((pyStr fk).data ++
      ['\n'])))))))))))⟩ = false :=
    blankOrComment_token_false _ c hhead.1 hhead.2.1 hhead.2.2
  have hdpd : (pyStr dp).data.all pyIsDigit = true := by
    rw [pyStr_nonneg_data dp hdp]
    exact natDigits_all dp.toNat
  have hdpn : (pyStr dp).data ≠ [] := by
    rw [pyStr_nonneg_data dp hdp]
    exact natDigits_ne dp.toNat
  have hfkd : (pyStr fk).data.all pyIsDigit = true := by
    rw [pyStr_nonneg_data fk hfk]
    exact natDigits_all fk.toNat
  have hfkn : (pyStr fk).data ≠ [] := by
    rw [pyStr_nonneg_data fk hfk]
    exact natDigits_ne fk.toNat
  rw [pyFormatEntry_data dev mp ft opts dp fk]
  rw [set_raw_eq6 [] dev.data [' '] mp.data [' '] ft.data [' ']
    opts.data [' '] (pyStr dp).data [' '] (pyStr fk).data ['\n']
    (by simpa using hbc)
    (by decide) hdev2 hdev1 (by decide) (by decide) hmp2 hmp1
    (by decide) (by decide) hft2 hft1 (by decide) (by decide)
    hop2 hop1 (by decide) (by decide) hdpd hdpn (by decide) (by decide)
    hfkd hfkn (by decide)]

theorem set_raw_format_plain (dev mp ft u v : String) (dp fk : Int)
    (hdev1 : dev.data ≠ []) (hdev2 : dev.data.all nonSpace = true)
    (hdev3 : dev.data.head? ≠ some '#')
    (hmp1 : mp.data ≠ []) (hmp2 : mp.data.all nonSpace = true)
    (hft1 : ft.data ≠ []) (hft2 : ft.data.all nonSpace = true)
    (hu1 : u.data ≠ []) (hu2 : u.data.all nonSpace = true)
    (hv1 : v.data ≠ []) (hv2 : v.data.all nonSpace = true)
    (hdp : 0 ≤ dp) (hfk : 0 ≤ fk) :
    set_raw (pyFormatEntry dev mp ft (u ++ " " ++ v) dp fk) =
      plainLine (pyFormatEntry dev mp ft (u ++ " " ++ v) dp fk) := by
  obtain ⟨c, rest, hd⟩ : ∃ c rest, dev.data = c :: rest := by
    cases hdd : dev.data with
    | nil => exact absurd hdd hdev1
    | cons c cs => exact ⟨c, cs, rfl⟩
  have hop : (u ++ " " ++ v).data = u.data ++ ([' '] ++ v.data) := by
    simp [strDataAppend]
  have hshape : pyFormatEntry dev mp ft (u ++ " " ++ v) dp fk =
      ⟨[] ++ (dev.data ++ ([' '] ++ (mp.data ++ ([' '] ++ (ft.data ++
        ([' '] ++ (u.data ++ ([' '] ++ (v.data ++ ([' '] ++
        ((pyStr dp).data ++ ([' '] ++ ((pyStr fk).data ++
        ['\n'])))))))))))))⟩ := by
    rw [pyFormatEntry_data dev mp ft (u ++ " " ++ v) dp fk]
    apply strExt
    simp [hop]
  have hhead := head_format dev c rest hd hdev2 hdev3
    ([' '] ++ (mp.data ++ ([' '] ++ (ft.data ++ ([' '] ++ (u.data ++
      ([' '] ++ (v.data ++ ([' '] ++ ((pyStr dp).data ++ ([' '] ++
      ((pyStr fk).data ++ ['\n']))))))))))))
  have hbc : blankOrComment ⟨[] ++ (dev.data ++ ([' '] ++ (mp.data ++
      ([' '] ++ (ft.data ++ ([' '] ++ (u.data ++ ([' '] ++ (v.data ++
      ([' '] ++ ((pyStr dp).data ++ ([' '] ++ ((pyStr fk).data ++
      ['\n'])))))))))))))⟩ = false :=
    blankOrComment_token_false _ c hhead.1 hhead.2.1 hhead.2.2
  have hdpd : (pyStr dp).data.all nonSpace = true := by
    rw [pyStr_nonneg_data dp hdp]
    exact all_digit_all_nonSpace (natDigits_all dp.toNat)
  have hdpn : (pyStr dp).data ≠ [] := by
    rw [pyStr_nonneg_data dp hdp]
    exact natDigits_ne dp.toNat
  have hfkn : (pyStr fk).data ≠ [] := by
    rw [pyStr_nonneg_data fk hfk]
    exact natDigits_ne fk.toNat
  have hS := mkSpans_eq6 [] dev.data [' '] mp.data [' '] ft.data [' ']
    u.data [' '] v.data [' '] (pyStr dp).data [' ']
    ((pyStr fk).data ++ ['\n'])
    (by decide) hdev2 hdev1 (by decide) (by decide) hmp2 hmp1
    (by decide) (by decide) hft2 hft1 (by decide) (by decide)
    hu2 hu1 (by decide) (by decide) hv2 hv1 (by decide) (by decide)
    hdpd hdpn (by decide)
    (fun cc hcc => by
      rw [head?_append_left ((pyStr fk).data) ['\n'] hfkn] at hcc
      have hfka : (pyStr fk).data.all nonSpace = true := by
        rw [pyStr_nonneg_data fk hfk]
        exact all_digit_all_nonSpace (natDigits_all fk.toNat)
      exact head_of_all_nonSpace hfka cc hcc)
    (fun he => absurd he (by decide))
  rw [hshape]
  simp only [set_raw]
  rw [if_neg (by simpa using hbc)]
  rw [hS]
  rw [if_neg (by
    simp [condA, isEmpty_false_of_ne_nil
      (List.append_ne_nil_of_right_ne_nil (pyStr fk).data
        (by simp : (['\n'] : List Char) ≠ []))])]
  rw [if_neg (by simp [condB])]

/-- Claim C1: for every raw line that is blank, a comment (trimmed line
starts with a hash), or fails the six-field grammar, parsing the line and
then rendering the resulting entry returns the original raw line
byte-for-byte (and the resulting entry carries no filesystem
specification), provided no field is mutated in between. -/
theorem claim_C1_roundtrip_unparsed (raw : String)
    (h : blankOrComment raw = true ∨ ¬ MatchesGrammar raw.data) :
    get_raw (set_raw raw) = raw ∧ has_filesystem (set_raw raw) = false := by
  refine ⟨get_raw_set_raw raw, ?_⟩
  by_cases hbc : blankOrComment raw = true
  · simp [set_raw, hbc, plainLine, has_filesystem]
  · rcases h with h | h
    · contradiction
    · by_cases hfs : has_filesystem (set_raw raw) = true
      · exact absurd (grammar_of_entry raw (by simpa using hbc) hfs) h
      · simpa using hfs

theorem claim_C1_witness :
    get_raw (set_raw "# comment\n") = "# comment\n" ∧
    has_filesystem (set_raw "# comment\n") = false :=
  claim_C1_roundtrip_unparsed "# comment\n" (Or.inl (by decide))

/-- Claim C2: for every raw line that matches the six-field grammar,
parsing the line and then rendering the result returns the original raw
line byte-for-byte, before any field mutation; outside the trim-checked
blank/comment case the parse yields a filesystem entry whose rendering is
the concatenation of the thirteen stored groups. -/
theorem claim_C2_roundtrip_wellformed (raw : String)
    (h : MatchesGrammar raw.data) :
    get_raw (set_raw raw) = raw ∧
    (blankOrComment raw = false → has_filesystem (set_raw raw) = true) :=
  ⟨get_raw_set_raw raw, fun hbc => entry_of_grammar raw hbc h⟩

theorem claim_C2_witness :
    get_raw (set_raw "/dev/sda1 / ext4 defaults 0 1\n") =
      "/dev/sda1 / ext4 defaults 0 1\n" ∧
    (blankOrComment "/dev/sda1 / ext4 defaults 0 1\n" = false →
      has_filesystem (set_raw "/dev/sda1 / ext4 defaults 0 1\n") = true) :=
  claim_C2_roundtrip_wellformed "/dev/sda1 / ext4 defaults 0 1\n"
    ⟨[], "/dev/sda1".data, [' '], "/".data, [' '], "ext4".data, [' '],
     "defaults".data, [' '], ['0'], [' '], ['1'], ['\n'], by decide⟩

/-- Claim C3, counterexample: on a line parsed as an OpaqueLine (a
comment), assigning `options` does not raise the "no filesystem
specification" error: the assignment is routed through
`object.__setattr__` to the property setter, returns successfully, and
silently overwrites the hidden `dict` slot. -/
theorem claim_C3_counterexample :
    assign_options (set_raw "# mounts\n") ["a", "b"] =
      Except.ok (set_options (set_raw "# mounts\n") ["a", "b"]) ∧
    (set_options (set_raw "# mounts\n") ["a", "b"]).options =
      some "a,b" ∧
    has_filesystem (set_raw "# mounts\n") = false := by
  refine ⟨rfl, ?_, by decide⟩
  decide

/-- Claim C3, amended: on a line without filesystem specification,
setting `device`, `mountPoint` (`directory`) or `fsType` raises the
"no filesystem specification" error, but setting `options`,
`dumpFrequency` (`dump`) or `fsckOrder` (`fsck`) is routed to the
property setters, succeeds silently, mutates only the hidden field store,
and leaves the variant and the rendered output unchanged. -/
theorem claim_C3_amended (s : LineState) (v : String) (l : List String)
    (i j : Int) (hdev : s.device = none) (hdir : s.directory = none)
    (hft : s.fstype = none) :
    setattr_device s v = .error (noFsMsg "device") ∧
    setattr_directory s v = .error (noFsMsg "directory") ∧
    setattr_fstype s v = .error (noFsMsg "fstype") ∧
    assign_options s l = .ok (set_options s l) ∧
    (set_options s l).options = some (joinWithComma l) ∧
    has_filesystem (set_options s l) = false ∧
    get_raw (set_options s l) = s.raw ∧
    assign_dump s i = .ok (set_dump s i) ∧
    (set_dump s i).dump = some (pyStr i) ∧
    has_filesystem (set_dump s i) = false ∧
    get_raw (set_dump s i) = s.raw ∧
    assign_fsck s j = .ok (set_fsck s j) ∧
    (set_fsck s j).fsck = some (pyStr j) ∧
    has_filesystem (set_fsck s j) = false ∧
    get_raw (set_fsck s j) = s.raw := by
  refine ⟨?_, ?_, ?_, rfl, rfl, ?_, ?_, rfl, rfl, ?_, ?_, rfl, rfl, ?_,
    ?_⟩
  · simp [setattr_device, hdev]
  · simp [setattr_directory, hdir]
  · simp [setattr_fstype, hft]
  · simp [set_options, has_filesystem, hdev]
  · simp [get_raw, set_options, hdev]
  · simp [set_dump, has_filesystem, hdev]
  · simp [get_raw, set_dump, hdev]
  · simp [set_fsck, has_filesystem, hdev]
  · simp [get_raw, set_fsck, hdev]

theorem claim_C3_witness :
    setattr_device (set_raw "# x\n") "v" = .error (noFsMsg "device") ∧
    get_raw (set_options (set_raw "# x\n") ["a"]) =
      (set_raw "# x\n").raw := by
  have h := claim_C3_amended (set_raw "# x\n") "v" ["a"] 1 2 (by decide)
    (by decide) (by decide)
  exact ⟨h.1, h.2.2.2.2.2.2.1⟩

theorem delete_entry_first_last (pre : List LineState) (x : LineState)
    (d : String) (hpre : ∀ z ∈ pre, lineMatches d z = false)
    (hx : lineMatches d x = true) :
    delete_entry (pre ++ [x]) d = pre := by
  induction pre with
  | nil =>
    simp only [List.nil_append]
    exact delete_entry_single x d hx
  | cons p ps ih =>
    have hp : lineMatches d p = false := hpre p (by simp)
    simp only [List.cons_append]
    rw [delete_entry_cons_keep p (ps ++ [x]) d hp]
    rw [ih (fun z hz => hpre z (by simp [hz]))]

theorem delete_entry_first_skip (pre : List LineState) (x y : LineState)
    (ys : List LineState) (d : String)
    (hpre : ∀ z ∈ pre, lineMatches d z = false)
    (hx : lineMatches d x = true) :
    delete_entry (pre ++ (x :: (y :: ys))) d =
      pre ++ (y :: delete_entry ys d) := by
  induction pre with
  | nil =>
    simp only [List.nil_append]
    exact delete_entry_cons_skip x y ys d hx
  | cons p ps ih =>
    have hp : lineMatches d p = false := hpre p (by simp)
    simp only [List.cons_append]
    rw [delete_entry_cons_keep p (ps ++ (x :: (y :: ys))) d hp]
    rw [ih (fun z hz => hpre z (by simp [hz]))]

/-- Claim C4, counterexample: with a table holding two entries for
`/mnt` separated by a comment line, `delete_entry` removes both of them,
not only the first — the claim predicts that the later duplicate stays. -/
theorem claim_C4_counterexample :
    countFor [set_raw "d1 /mnt t1 o1 0 0\n", set_raw "# comment\n",
      set_raw "d3 /mnt t3 o3 0 0\n"] "/mnt" = 2 ∧
    delete_entry [set_raw "d1 /mnt t1 o1 0 0\n", set_raw "# comment\n",
      set_raw "d3 /mnt t3 o3 0 0\n"] "/mnt" =
      [set_raw "# comment\n"] ∧
    countFor (delete_entry [set_raw "d1 /mnt t1 o1 0 0\n",
      set_raw "# comment\n", set_raw "d3 /mnt t3 o3 0 0\n"] "/mnt")
      "/mnt" = 0 := by
  refine ⟨by decide, by decide, by decide⟩

/-- Claim C4, amended: `delete_entry` is a single left-to-right pass with
a live index, so the element sliding into a deleted slot is skipped.
Consequently: it is a no-op when no entry matches; the result is a
subsequence of the table; every non-matching line (in particular every
opaque line) is kept; when a match exists the match count strictly
decreases; and at the first match — the table split as a match-free
prefix `pre` followed by the matching line `x` — that first match is
always deleted, while the element `y` immediately after it is always
kept verbatim (so a matching duplicate adjacent to the deleted entry
survives), with the scan resuming only after `y`; non-adjacent later
duplicates may therefore be deleted too, as the counterexample shows. -/
theorem claim_C4_amended (lines pre ys : List LineState)
    (x y : LineState) (d : String) :
    ((∀ z ∈ lines, lineMatches d z = false) →
      delete_entry lines d = lines) ∧
    (delete_entry lines d).Sublist lines ∧
    (delete_entry lines d).countP (fun z => !lineMatches d z) =
      lines.countP (fun z => !lineMatches d z) ∧
    ((∃ z ∈ lines, lineMatches d z = true) →
      countFor (delete_entry lines d) d < countFor lines d) ∧
    ((∀ z ∈ pre, lineMatches d z = false) → lineMatches d x = true →
      (delete_entry (pre ++ [x]) d = pre ∧
       delete_entry (pre ++ (x :: (y :: ys))) d =
         pre ++ (y :: delete_entry ys d))) :=
  ⟨delete_entry_noop lines d, delete_entry_sublist lines d,
   delete_entry_keeps_nonmatching lines d, delete_entry_count_lt lines d,
   fun hpre hx => ⟨delete_entry_first_last pre x d hpre hx,
     delete_entry_first_skip pre x y ys d hpre hx⟩⟩

theorem claim_C4_witness :
    delete_entry [set_raw "a /m b c 0 0\n", set_raw "d /m e f 0 0\n"]
      "/m" = [set_raw "d /m e f 0 0\n"] ∧
    delete_entry [set_raw "# z\n", set_raw "a /m b c 0 0\n"] "/m" =
      [set_raw "# z\n"] := by
  have h1 := claim_C4_amended [] [] [] (set_raw "a /m b c 0 0\n")
    (set_raw "d /m e f 0 0\n") "/m"
  have h2 := claim_C4_amended [] [set_raw "# z\n"] []
    (set_raw "a /m b c 0 0\n") (set_raw "d /m e f 0 0\n") "/m"
  constructor
  · have hs := (h1.2.2.2.2 (by intro z hz; simp at hz) (by decide)).2
    simpa [delete_entry] using hs
  · have hs := (h2.2.2.2.2
      (by
        intro z hz
        simp only [List.mem_singleton] at hz
        subst hz
        decide)
      (by decide)).1
    simpa using hs

/-- Claim C5, counterexample: starting from a table that already holds
two entries for `/mnt`, calling `add_entry` twice for `/mnt` leaves TWO
filesystem entries for that mount point (the skip in `delete_entry` lets
a duplicate survive each replace), where the claim predicts exactly
one. -/
theorem claim_C5_counterexample :
    countFor (add_entry (add_entry [set_raw "d1 /mnt t1 o1 0 0\n",
      set_raw "d2 /mnt t2 o2 0 0\n"] "dA" "/mnt" "tA" "oA" 0 0)
      "dB" "/mnt" "tB" "oB" 0 0) "/mnt" = 2 := by
  decide

/-- Claim C5, amended: when the table holds at most one entry for the
mount point (so the skip in `delete_entry` cannot leave a survivor) and
the formatted new line parses back to an entry for that mount point,
`add_entry` yields exactly one entry for the mount point, appended at the
end of the table with the (last) call's values. -/
theorem claim_C5_amended (lines : List LineState)
    (dev mp ft opts : String) (dp fk : Int)
    (h1 : countFor lines mp ≤ 1)
    (h2 : lineMatches mp
      (set_raw (pyFormatEntry dev mp ft opts dp fk)) = true) :
    countFor (add_entry lines dev mp ft opts dp fk) mp = 1 ∧
    (add_entry lines dev mp ft opts dp fk).getLast? =
      some (set_raw (pyFormatEntry dev mp ft opts dp fk)) := by
  constructor
  · rw [add_entry_count lines dev mp ft opts dp fk h1]
    simp [countFor, List.countP_cons, h2]
  · simp only [add_entry]
    exact List.getLast?_concat _

theorem claim_C5_witness :
    countFor (add_entry [] "dev0" "/mnt" "t0" "o0" 0 0) "/mnt" = 1 ∧
    (add_entry [] "dev0" "/mnt" "t0" "o0" 0 0).getLast? =
      some (set_raw (pyFormatEntry "dev0" "/mnt" "t0" "o0" 0 0)) :=
  claim_C5_amended [] "dev0" "/mnt" "t0" "o0" 0 0 (by decide) (by decide)

/-- Claim C6: after a successful `write` (modelled by `writeFs` over the
inode file-system model, with the fresh temporary name and the
inode-freshness invariant made explicit), the target file contains
exactly the concatenation of the renderings of all entries in order, the
backup `path + ".bak"` holds the pre-write content of the target (as a
hard link to the old inode), and the permission bits of the target are
unchanged. -/
theorem claim_C6_atomic_write (failAt : Nat → Bool) (temp : String)
    (lines : List LineState) (fn : String) (fs fsr : FSState)
    (hWF : FSWF fs) (ht1 : temp ≠ fn) (ht2 : temp ≠ fn ++ ".bak")
    (hok : writeFs failAt temp lines fn fs = .ok fsr) :
    contentAt fsr fn = some (renderTable lines) ∧
    contentAt fsr (fn ++ ".bak") = contentAt fs fn ∧
    permsAt fsr fn = permsAt fs fn := by
  obtain ⟨ifn, cfn, m, hfn, hbase, h1, h2, h3, h4⟩ :=
    writeFs_ok_char failAt temp lines fn fs fsr hWF ht1 ht2 hok
  refine ⟨?_, ?_, ?_⟩
  · simp [contentAt, h1, h2]
  · simp [contentAt, h3, h4, hfn, hbase]
  · simp [permsAt, h1, h2, hfn, hbase]

theorem claim_C6_witness :
    contentAt fsAfterWrite "f" =
      some (renderTable [set_raw "# c\n"]) ∧
    contentAt fsAfterWrite ("f" ++ ".bak") = contentAt fsOneFile "f" ∧
    permsAt fsAfterWrite "f" = permsAt fsOneFile "f" :=
  claim_C6_atomic_write (fun _ => false) "f.tmp1" [set_raw "# c\n"] "f"
    fsOneFile fsAfterWrite
    (by
      intro p i h
      by_cases hp : p = "f"
      · rw [hp] at h
        simp only [fsOneFile] at h ⊢
        simp at h
        omega
      · simp [fsOneFile, hp] at h)
    (by decide) (by decide) (by rfl)

/-- Claim C7, counterexample: a write into a directory where the target
file does not exist creates and fills the temporary file, then fails at
the `os.stat` step — and the temporary file is NOT removed: `write` has
no cleanup handler, so the leftover temporary file remains in the
file-system state carried by the error. -/
theorem claim_C7_counterexample :
    writeFs (fun _ => false) "f.tmp1" [] "f" fsEmpty =
      .error (2, fsEmptyFailed) ∧
    (fsEmptyFailed.names "f.tmp1").isSome = true := by
  exact ⟨rfl, rfl⟩

/-- Claim C7, amended: when `write` fails at any of the steps before the
final rename (temporary-file creation, rendering into it, permission
copy, backup removal or backup link), the content and the permission bits
of the original file are unchanged and the error is propagated — but no
cleanup is attempted: once created (any failing step after the first),
the temporary file is left behind in the resulting state. -/
theorem claim_C7_amended (failAt : Nat → Bool) (temp : String)
    (lines : List LineState) (fn : String) (fs fsE : FSState) (k : Nat)
    (hWF : FSWF fs) (ht1 : temp ≠ fn) (ht2 : temp ≠ fn ++ ".bak")
    (herr : writeFs failAt temp lines fn fs = .error (k, fsE)) :
    contentAt fsE fn = contentAt fs fn ∧
    permsAt fsE fn = permsAt fs fn ∧
    (1 ≤ k → (fsE.names temp).isSome = true) :=
  writeFs_err_char failAt temp lines fn fs fsE k hWF ht1 ht2 herr

theorem claim_C7_witness :
    contentAt fsEmptyFailed "f" = contentAt fsEmpty "f" ∧
    permsAt fsEmptyFailed "f" = permsAt fsEmpty "f" ∧
    (1 ≤ 2 → (fsEmptyFailed.names "f.tmp1").isSome = true) :=
  claim_C7_amended (fun _ => false) "f.tmp1" [] "f" fsEmpty
    fsEmptyFailed 2
    (by intro p i h; simp [fsEmpty] at h)
    (by decide) (by decide) (by rfl)

/-- Claim C8: parsing returns an OpaqueLine immediately (all structured
attributes `None`) when the trimmed line is empty or starts with a hash;
otherwise the result carries a filesystem specification exactly when the
whole line matches the six-field grammar (`ws1`/`ws7` possibly empty,
`ws2..ws6` non-empty whitespace, `device` possibly empty, the other
content fields non-empty, dump/fsck pure digit strings); any non-matching
line becomes an OpaqueLine — never an error (`set_raw` is total). -/
theorem claim_C8_parse_classification (raw : String) :
    (blankOrComment raw = true → set_raw raw = plainLine raw) ∧
    (blankOrComment raw = false →
      (has_filesystem (set_raw raw) = true ↔ MatchesGrammar raw.data)) ∧
    (has_filesystem (set_raw raw) = false →
      set_raw raw = plainLine raw) := by
  refine ⟨?_, ?_, set_raw_plain_of_not_entry raw⟩
  · intro h
    simp [set_raw, h]
  · intro hbc
    exact ⟨grammar_of_entry raw hbc, entry_of_grammar raw hbc⟩

theorem claim_C8_witness :
    set_raw "# c2\n" = plainLine "# c2\n" ∧
    (has_filesystem (set_raw "x\n") = true ↔
      MatchesGrammar ("x\n".data)) :=
  ⟨(claim_C8_parse_classification "# c2\n").1 (by decide),
   (claim_C8_parse_classification "x\n").2.1 (by decide)⟩

/-- Claim C9: on any filesystem entry, setting `options` to the list
`["a", "b"]` makes `get_options` return `["a", "b"]` and makes the
rendering carry exactly `"a,b"` in the options position — options are
read and written as an ordered list joined with a comma on output. -/
theorem claim_C9_options_roundtrip
    (w1 d w2 dir w3 ft w4 op w5 dp w6 fk w7 raw : String) :
    get_options (set_options
      ⟨some w1, some d, some w2, some dir, some w3, some ft, some w4,
       some op, some w5, some dp, some w6, some fk, some w7, raw⟩
      ["a", "b"]) = some ["a", "b"] ∧
    get_raw (set_options
      ⟨some w1, some d, some w2, some dir, some w3, some ft, some w4,
       some op, some w5, some dp, some w6, some fk, some w7, raw⟩
      ["a", "b"]) =
      w1 ++ (d ++ (w2 ++ (dir ++ (w3 ++ (ft ++ (w4 ++ ("a,b" ++ (w5 ++
        (dp ++ (w6 ++ (fk ++ w7))))))))))) := by
  constructor
  · rfl
  · simp [get_raw, set_options,
      show joinWithComma ["a", "b"] = "a,b" from rfl]

/-- Claim C10, counterexample: `add_entry` with a mount point containing
a space — while device, fsType and options are non-empty and
whitespace-free — appends an OpaqueLine, not a FilesystemEntry: the claim
omits the needed constraint on `mountPoint`. -/
theorem claim_C10_counterexample :
    has_filesystem (set_raw (pyFormatEntry "d" "a b" "t" "o" 0 0)) =
      false ∧
    add_entry [] "d" "a b" "t" "o" 0 0 =
      [set_raw (pyFormatEntry "d" "a b" "t" "o" 0 0)] ∧
    get_entry (add_entry [] "d" "a b" "t" "o" 0 0) "a b" = none := by
  refine ⟨by decide, by decide, by decide⟩

/-- Claim C10, amended: `add_entry` formats the six arguments with single
spaces plus a trailing newline and re-parses the text.  When device,
mountPoint, fsType AND options are all non-empty, whitespace-free strings
(device additionally not starting with a hash) and dump/fsck are
non-negative integers, the appended line is a FilesystemEntry carrying
exactly those fields; when options instead contains an embedded space
(`u ++ " " ++ v` with `u`, `v` non-empty and whitespace-free), the
appended line is an OpaqueLine and, on a table with no entry for the
mount point, a subsequent `get_entry` reports it absent. -/
theorem claim_C10_amended (lines : List LineState)
    (dev mp ft opts u v : String) (dp fk : Int)
    (hdev1 : dev.data ≠ []) (hdev2 : dev.data.all nonSpace = true)
    (hdev3 : dev.data.head? ≠ some '#')
    (hmp1 : mp.data ≠ []) (hmp2 : mp.data.all nonSpace = true)
    (hft1 : ft.data ≠ []) (hft2 : ft.data.all nonSpace = true)
    (hdp : 0 ≤ dp) (hfk : 0 ≤ fk) :
    ((opts.data ≠ [] ∧ opts.data.all nonSpace = true) →
      (has_filesystem (set_raw (pyFormatEntry dev mp ft opts dp fk)) =
        true ∧
       (set_raw (pyFormatEntry dev mp ft opts dp fk)).device =
         some dev ∧
       (set_raw (pyFormatEntry dev mp ft opts dp fk)).directory =
         some mp ∧
       (set_raw (pyFormatEntry dev mp ft opts dp fk)).fstype =
         some ft ∧
       (set_raw (pyFormatEntry dev mp ft opts dp fk)).options =
         some opts ∧
       (add_entry lines dev mp ft opts dp fk).getLast? =
         some (set_raw (pyFormatEntry dev mp ft opts dp fk)))) ∧
    ((u.data ≠ [] ∧ u.data.all nonSpace = true ∧ v.data ≠ [] ∧
      v.data.all nonSpace = true ∧ countFor lines mp = 0) →
      (has_filesystem (set_raw (pyFormatEntry dev mp ft
        (u ++ " " ++ v) dp fk)) = false ∧
       get_entry (add_entry lines dev mp ft (u ++ " " ++ v) dp fk) mp =
         none)) := by
  constructor
  · rintro ⟨hop1, hop2⟩
    have hsf := set_raw_format dev mp ft opts dp fk hdev1 hdev2 hdev3
      hmp1 hmp2 hft1 hft2 hop1 hop2 hdp hfk
    rw [hsf]
    refine ⟨rfl, rfl, rfl, rfl, rfl, ?_⟩
    simp only [add_entry]
    rw [hsf]
    exact List.getLast?_concat _
  · rintro ⟨hu1, hu2, hv1, hv2, hcnt⟩
    have hso := set_raw_format_plain dev mp ft u v dp fk hdev1 hdev2
      hdev3 hmp1 hmp2 hft1 hft2 hu1 hu2 hv1 hv2 hdp hfk
    refine ⟨by rw [hso]; rfl, ?_⟩
    have hall := (countFor_zero_iff lines mp).mp hcnt
    have hge : get_entry lines mp = none :=
      (get_entry_none_iff lines mp).mpr hall
    simp only [add_entry, hge]
    rw [if_neg (by simp)]
    rw [hso]
    apply (get_entry_none_iff _ mp).mpr
    intro x hx
    rcases List.mem_append.mp hx with hx | hx
    · exact hall x hx
    · simp only [List.mem_singleton] at hx
      subst hx
      rfl

theorem claim_C10_witness :
    has_filesystem (set_raw
      (pyFormatEntry "cloudstor" "/mnt" "davfs" "_netdev" 0 0)) = true ∧
    has_filesystem (set_raw (pyFormatEntry "cloudstor" "/mnt" "davfs"
      ("a" ++ " " ++ "b") 0 0)) = false := by
  have h := claim_C10_amended [] "cloudstor" "/mnt" "davfs" "_netdev"
    "a" "b" 0 0 (by decide) (by decide) (by decide) (by decide)
    (by decide) (by decide) (by decide) (by decide) (by decide)
  exact ⟨(h.1 ⟨by decide, by decide⟩).1,
    (h.2 ⟨by decide, by decide, by decide, by decide, by decide⟩).1⟩
